import Mathlib

/-!
# Verification of `UI/GameInfoCache.cpp` (ppsspp)

A shallow embedding of the game-info cache: the per-key `GameInfo` record,
the `GameInfoWorkItem` loader task, and the `GameInfoCache` operations
(`GetInfo`, `Clear`, `FlushBGs`).  Records live in a heap (a list of
`Option GameInfo`; `none` marks a freed record) so that record identity,
the escalation discard (`delete info`) and writes to freed storage are
all expressible.  The loader task is split into its critical sections
(one `FieldWrite` per lock-protected mutation in the source), so that
foreground decode steps can interleave with background populate steps.
External collaborators (PBP reader, SFO codec, block device, ISO file
system, PNG decoder, clock) are an oracle structure `Env`.
-/

set_option maxHeartbeats 1000000

namespace GameInfoCacheModel

/-- File types assigned by the loader task (`FILETYPE_*` in the source;
the `unknown` value is the state before the loader classifies the key). -/
inductive FileType where
  | FILETYPE_UNKNOWN
  | FILETYPE_PSP_PBP
  | FILETYPE_PSP_ELF
  | FILETYPE_PSP_ISO
  deriving DecidableEq, Repr

/-- Sub-file identifiers of a PBP container (`PBP_PARAM_SFO`, `PBP_ICON0_PNG`,
`PBP_PIC1_PNG` in the source). -/
inductive PBPSub where
  | PARAM_SFO
  | ICON0_PNG
  | PIC1_PNG
  deriving DecidableEq, Repr

/-- The per-key record (`GameInfo` in `GameInfoCache.h`).  Raw artifact
buffers are byte lists; decoded texture handles are `Option Unit`
(`some ()` = a live `Texture*`, `none` = null). -/
structure GameInfo where
  fileType : FileType
  wantBG : Bool
  title : String
  paramSFO : List (String × String)
  iconTextureData : List UInt8
  pic0TextureData : List UInt8
  pic1TextureData : List UInt8
  iconTexture : Option Unit
  pic0Texture : Option Unit
  pic1Texture : Option Unit
  timeIconWasLoaded : Nat
  timePic0WasLoaded : Nat
  timePic1WasLoaded : Nat
  lastAccessedTime : Nat
  deriving DecidableEq, Repr

/-- Modelled from the spec: the `GameInfo` constructor lives in
`GameInfoCache.h`, which is not part of the provided source.  The spec
(§3) fixes the initial record state: kind undetermined, title empty,
metadata table unpopulated, all three artifact slots `Empty` (no raw
bytes, null decoded handles); numeric timestamps start at zero. -/
def GameInfo.init : GameInfo where
  fileType := FileType.FILETYPE_UNKNOWN
  wantBG := false
  title := ""
  paramSFO := []
  iconTextureData := []
  pic0TextureData := []
  pic1TextureData := []
  iconTexture := none
  pic0Texture := none
  pic1Texture := none
  timeIconWasLoaded := 0
  timePic0WasLoaded := 0
  timePic1WasLoaded := 0
  lastAccessedTime := 0

/-- External collaborators consumed by the cache and the loader task:
PBP container reader, SFO metadata codec, block-device constructor, the
mounted ISO file system (existence / open / contents per file name), and
the PNG decoder (`Texture::LoadPNG` success predicate). -/
structure Env where
  pbpValid : String → Bool
  pbpSubFileSize : String → PBPSub → Nat
  pbpSubFile : String → PBPSub → List UInt8
  sfoParse : List UInt8 → List (String × String)
  constructBlockDevice : String → Bool
  fileExists : String → String → Bool
  fileOpenOk : String → String → Bool
  fileContents : String → String → List UInt8
  loadPNG : List UInt8 → Bool

/-- Model of `ParamSFOData::GetValueString`: look a key up in the parsed table,
empty string when absent. -/
def getValueString (table : List (String × String)) (key : String) : String :=
  match table.lookup key with
  | some v => v
  | none => ""

/-- Model of `ReadFileToString` (GameInfoCache.cpp:33): returns the file contents
when the file exists and opens, `none` otherwise. -/
def ReadFileToString (env : Env) (gamePath filename : String) : Option (List UInt8) :=
  if env.fileExists gamePath filename then
    if env.fileOpenOk gamePath filename then
      some (env.fileContents gamePath filename)
    else none
  else none

/-- Modelled from the spec: `endsWith` lives in `base/stringutil`, which is
not part of the provided source; the spec dispatches on "the key's form"
(a path ending in `.PBP`, `.elf`, `.prx`).  Standard suffix test. -/
def strEndsWith (s suf : String) : Bool :=
  decide (s.data.drop (s.data.length - suf.data.length) = suf.data)

/-- Modelled from the spec: `startsWith` lives in `base/stringutil`, which
is not part of the provided source.  Standard prefix test. -/
def strStartsWith (s pre : String) : Bool :=
  decide (s.data.take pre.data.length = pre.data)

/-- One critical section of the loader task `GameInfoWorkItem::run`:
each constructor is one lock-protected mutation of the bound record
(the unlocked `fileType` stores are single stores and are likewise one
atomic step each). -/
inductive FieldWrite where
  | setFileType (ft : FileType)
  | setSFO (table : List (String × String))
  | setIconData (d : List UInt8)
  | setPic0Data (d : List UInt8)
  | setPic1Data (d : List UInt8)
  deriving DecidableEq, Repr

/-- Apply one loader critical section to a record.  `setSFO` matches the
source's single lock scope that runs `ReadSFO` and then assigns
`title = paramSFO.GetValueString("TITLE")`. -/
def applyWrite (r : GameInfo) (w : FieldWrite) : GameInfo :=
  match w with
  | FieldWrite.setFileType ft => { r with fileType := ft }
  | FieldWrite.setSFO table =>
      { r with paramSFO := table, title := getValueString table "TITLE" }
  | FieldWrite.setIconData d => { r with iconTextureData := d }
  | FieldWrite.setPic0Data d => { r with pic0TextureData := d }
  | FieldWrite.setPic1Data d => { r with pic1TextureData := d }

/-- The sequence of critical sections `GameInfoWorkItem::run` performs,
as a function of the oracle, the game path, and the record's `wantBG`
(read by the task; immutable after record creation).  Mirrors the
dispatch in GameInfoCache.cpp:63-135: the `ms0:/PSP/GAME` early return,
then `.PBP`, then `.elf`/`.prx`, then the ISO fallback (which stores
`FILETYPE_PSP_ISO` before attempting `constructBlockDevice`). -/
def runProgram (env : Env) (gamePath : String) (wantBG : Bool) : List FieldWrite :=
  if strStartsWith gamePath "ms0:/PSP/GAME" then
    []
  else if strEndsWith gamePath ".PBP" then
    if !env.pbpValid gamePath then
      []
    else
      [FieldWrite.setFileType FileType.FILETYPE_PSP_PBP,
       FieldWrite.setSFO (env.sfoParse (env.pbpSubFile gamePath PBPSub.PARAM_SFO))]
      ++ (if env.pbpSubFileSize gamePath PBPSub.ICON0_PNG > 0 then
            [FieldWrite.setIconData (env.pbpSubFile gamePath PBPSub.ICON0_PNG)]
          else [])
      ++ (if wantBG then
            if env.pbpSubFileSize gamePath PBPSub.PIC1_PNG > 0 then
              [FieldWrite.setPic1Data (env.pbpSubFile gamePath PBPSub.PIC1_PNG)]
            else []
          else [])
  else if strEndsWith gamePath ".elf" || strEndsWith gamePath ".prx" then
    [FieldWrite.setFileType FileType.FILETYPE_PSP_ELF]
  else
    [FieldWrite.setFileType FileType.FILETYPE_PSP_ISO]
    ++ (if !env.constructBlockDevice gamePath then
          []
        else
          (match ReadFileToString env gamePath "/PSP_GAME/PARAM.SFO" with
           | some c => [FieldWrite.setSFO (env.sfoParse c)]
           | none => [])
          ++ (match ReadFileToString env gamePath "/PSP_GAME/ICON0.PNG" with
              | some c => [FieldWrite.setIconData c]
              | none => [])
          ++ (if wantBG then
                (match ReadFileToString env gamePath "/PSP_GAME/PIC0.PNG" with
                 | some c => [FieldWrite.setPic0Data c]
                 | none => [])
                ++ (match ReadFileToString env gamePath "/PSP_GAME/PIC1.PNG" with
                    | some c => [FieldWrite.setPic1Data c]
                    | none => [])
              else []))

/-- Complete (uninterleaved) execution of `GameInfoWorkItem::run` on a
record. -/
def runOn (env : Env) (gamePath : String) (r : GameInfo) : GameInfo :=
  (runProgram env gamePath r.wantBG).foldl applyWrite r

/-- Foreground decode of the icon slot (GameInfoCache.cpp:233-247), one
critical section: when raw bytes are present, allocate a texture, try
`LoadPNG`; on success keep the handle and record the time, on failure
delete it and null the handle; clear the raw buffer either way. -/
def decodeIcon (env : Env) (now : Nat) (r : GameInfo) : GameInfo :=
  if r.iconTextureData.length ≠ 0 then
    if env.loadPNG r.iconTextureData then
      { r with iconTexture := some (), timeIconWasLoaded := now, iconTextureData := [] }
    else
      { r with iconTexture := none, iconTextureData := [] }
  else r

/-- Foreground decode of the pic0 slot (GameInfoCache.cpp:248-260).  On
failure the source deletes and nulls `iconTexture` — not `pic0Texture` —
and leaves `pic0Texture` pointing at the failed texture. -/
def decodePic0 (env : Env) (now : Nat) (r : GameInfo) : GameInfo :=
  if r.pic0TextureData.length ≠ 0 then
    if env.loadPNG r.pic0TextureData then
      { r with pic0Texture := some (), timePic0WasLoaded := now, pic0TextureData := [] }
    else
      { r with pic0Texture := some (), iconTexture := none, pic0TextureData := [] }
  else r

/-- Foreground decode of the pic1 slot (GameInfoCache.cpp:261-273); the
failure branch again deletes and nulls `iconTexture`, leaving
`pic1Texture` non-null. -/
def decodePic1 (env : Env) (now : Nat) (r : GameInfo) : GameInfo :=
  if r.pic1TextureData.length ≠ 0 then
    if env.loadPNG r.pic1TextureData then
      { r with pic1Texture := some (), timePic1WasLoaded := now, pic1TextureData := [] }
    else
      { r with pic1Texture := some (), iconTexture := none, pic1TextureData := [] }
  else r

/-- The three decode critical sections of the `GetInfo` hit path, in
source order. -/
def decodeAll (env : Env) (now : Nat) (r : GameInfo) : GameInfo :=
  decodePic1 env now (decodePic0 env now (decodeIcon env now r))

/-- Lookup in a heap of records: `none` both for an out-of-range index
and for a freed (deleted) record. -/
def heapGet : List (Option GameInfo) → Nat → Option GameInfo
  | [], _ => none
  | x :: _, 0 => x
  | _ :: t, n + 1 => heapGet t n

/-- Overwrite one heap cell (no-op out of range). -/
def heapSet : List (Option GameInfo) → Nat → Option GameInfo → List (Option GameInfo)
  | [], _, _ => []
  | _ :: t, 0, v => v :: t
  | x :: t, n + 1, v => x :: heapSet t n v

/-- Update a live heap cell with `f`; freed or out-of-range cells are
left alone. -/
def heapModify (h : List (Option GameInfo)) (p : Nat) (f : GameInfo → GameInfo) :
    List (Option GameInfo) :=
  match heapGet h p with
  | some r => heapSet h p (some (f r))
  | none => h

/-- Model of `std::map::find` on the key→record-pointer map. -/
def mapLookup : List (String × Nat) → String → Option Nat
  | [], _ => none
  | (k, v) :: t, key => if k = key then some v else mapLookup t key

/-- Model of `info_[gamePath] = info`: replace the entry for the key, or append a
fresh one. -/
def mapSet : List (String × Nat) → String → Nat → List (String × Nat)
  | [], key, v => [(key, v)]
  | (k, w) :: t, key, v =>
      if k = key then (key, v) :: t else (k, w) :: mapSet t key v

/-- One queued `GameInfoWorkItem`: the captured game path, the raw
pointer to the bound record, and the critical sections it has not yet
executed.  (`wantBG` is read by the task from the record but is
immutable after creation, so the write list is fixed at submission.) -/
structure WorkItem where
  gamePath : String
  ptr : Nat
  writes : List FieldWrite
  deriving DecidableEq, Repr

/-- The whole cache: the record heap, the key→pointer map `info_`, the
scheduler's queue of loader tasks, and a flag recording whether any
loader critical section has ever targeted freed record storage
(undefined behaviour in the source). -/
structure CacheState where
  heap : List (Option GameInfo)
  infoMap : List (String × Nat)
  queue : List WorkItem
  freedWrite : Bool
  deriving DecidableEq, Repr

/-- The empty cache. -/
def initState : CacheState where
  heap := []
  infoMap := []
  queue := []
  freedWrite := false

/-- Model of `new GameInfo()` followed by `info->wantBG = wantBG`
(GameInfoCache.cpp:280-281). -/
def initRecord (wantBG : Bool) : GameInfo :=
  { GameInfo.init with wantBG := wantBG }

/-- The `again:` path of `GetInfo` (GameInfoCache.cpp:278-287): allocate
a fresh record with the requested `wantBG`, submit a loader task bound
to it, store it in the map, and return it. -/
def createRecord (env : Env) (s : CacheState) (gamePath : String) (wantBG : Bool) :
    Nat × CacheState :=
  let p := s.heap.length
  let info := initRecord wantBG
  (p, { s with heap := s.heap ++ [some info],
               queue := s.queue ++ [⟨gamePath, p, runProgram env gamePath wantBG⟩],
               infoMap := mapSet s.infoMap gamePath p })

/-- Model of `GameInfoCache::GetInfo` (GameInfoCache.cpp:224-288).  On a hit with
a `wantBG` escalation the existing record is freed (`delete info`) and
control falls through to creation; otherwise the hit path decodes the
three slots and stamps `lastAccessedTime`.  The loader task bound to a
freed record is left in the queue.  (The dangling-map branch is
unreachable: mapped pointers are always live.) -/
def GetInfo (env : Env) (s : CacheState) (gamePath : String) (wantBG : Bool)
    (now : Nat) : Nat × CacheState :=
  match mapLookup s.infoMap gamePath with
  | some p =>
    match heapGet s.heap p with
    | some info =>
        if !info.wantBG && wantBG then
          createRecord env { s with heap := heapSet s.heap p none } gamePath wantBG
        else
          let info := decodeAll env now info
          let info := { info with lastAccessedTime := now }
          (p, { s with heap := heapSet s.heap p (some info) })
    | none => createRecord env s gamePath wantBG
  | none => createRecord env s gamePath wantBG

/-- Model of `GameInfoWorkItem::priority` (GameInfoCache.cpp:137-139): it reads
`info_->lastAccessedTime` at the moment it is called, through the live
pointer (`none` when the record has been freed). -/
def priority (h : List (Option GameInfo)) (item : WorkItem) : Option Nat :=
  (heapGet h item.ptr).map (fun r => r.lastAccessedTime)

/-- One scheduler step: execute the next critical section of queue item
`i` (a write to a freed record sets `freedWrite`); an item with no
remaining sections is retired from the queue. -/
def RunStep (s : CacheState) (i : Nat) : CacheState :=
  match s.queue.get? i with
  | none => s
  | some item =>
    match item.writes with
    | [] => { s with queue := s.queue.eraseIdx i }
    | w :: ws =>
      let queue' := s.queue.set i { item with writes := ws }
      match heapGet s.heap item.ptr with
      | some r =>
          { s with heap := heapSet s.heap item.ptr (some (applyWrite r w)),
                   queue := queue' }
      | none => { s with queue := queue', freedWrite := true }

/-- The per-record body of `GameInfoCache::FlushBGs`
(GameInfoCache.cpp:197-215): clear both background raw buffers and
delete/null both background textures; nothing else is touched. -/
def flushRecord (r : GameInfo) : GameInfo :=
  { r with pic0TextureData := [], pic0Texture := none,
           pic1TextureData := [], pic1Texture := none }

/-- Model of `GameInfoCache::FlushBGs`: apply `flushRecord` to every record in
the map; the map and the queue are untouched. -/
def FlushBGs (s : CacheState) : CacheState :=
  { s with heap := s.infoMap.foldl (fun h kp => heapModify h kp.2 flushRecord) s.heap }

/-- The per-record body of `GameInfoCache::Clear`
(GameInfoCache.cpp:175-195): identical to the `FlushBGs` body — it
clears and deletes only the two background slots, never the icon slot. -/
def clearRecord (r : GameInfo) : GameInfo :=
  { r with pic0TextureData := [], pic0Texture := none,
           pic1TextureData := [], pic1Texture := none }

/-- Run one queued item to completion during `Clear`'s drain; remaining
sections aimed at a freed record set the freed-write flag. -/
def drainItem (acc : List (Option GameInfo) × Bool) (item : WorkItem) :
    List (Option GameInfo) × Bool :=
  match heapGet acc.1 item.ptr with
  | some r => (heapSet acc.1 item.ptr (some (item.writes.foldl applyWrite r)), acc.2)
  | none => (acc.1, acc.2 || !item.writes.isEmpty)

/-- Model of `GameInfoCache::Clear`.  The call `gameInfoWQ_->Flush()` is modelled from the
spec: the work-queue implementation is not part of the provided source,
and the spec (§4.1) requires `Clear` to block until all outstanding
loader tasks have finished (drain, not cancel).  Then every mapped
record gets the per-record cleanup body, and `info_.clear()` empties the
map — the records themselves are never freed. -/
def Clear (s : CacheState) : CacheState :=
  let hf := s.queue.foldl drainItem (s.heap, s.freedWrite)
  let h := s.infoMap.foldl (fun h kp => heapModify h kp.2 clearRecord) hf.1
  { heap := h, infoMap := [], queue := [], freedWrite := hf.2 }

/-- The number of live (never-`delete`d) decoded texture handles across
every record object still allocated, mapped or leaked. -/
def handleCount (r : GameInfo) : Nat :=
  (if r.iconTexture.isSome then 1 else 0)
  + (if r.pic0Texture.isSome then 1 else 0)
  + (if r.pic1Texture.isSome then 1 else 0)

/-- Outstanding decoded artifact handles over the whole heap. -/
def outstandingHandles (h : List (Option GameInfo)) : Nat :=
  (h.map (fun c => match c with | some r => handleCount r | none => 0)).sum

/-- The operations the two execution contexts can interleave: a
foreground `GetInfo`/`FlushBGs`/`Clear` call, or one background loader
critical section. -/
inductive Op where
  | opGetInfo (gamePath : String) (wantBG : Bool) (now : Nat)
  | opRunStep (i : Nat)
  | opFlushBGs
  | opClear
  deriving DecidableEq, Repr

/-- The state transformer of one operation. -/
def applyOp (env : Env) (s : CacheState) : Op → CacheState
  | Op.opGetInfo gamePath wantBG now => (GetInfo env s gamePath wantBG now).2
  | Op.opRunStep i => RunStep s i
  | Op.opFlushBGs => FlushBGs s
  | Op.opClear => Clear s

/-- Execute a sequence of interleaved operations. -/
def execOps (env : Env) (s : CacheState) (ops : List Op) : CacheState :=
  ops.foldl (applyOp env) s

/-- A cache state reachable from the empty cache by some interleaving of
foreground calls and loader critical sections. -/
def Reachable (env : Env) (s : CacheState) : Prop :=
  ∃ ops : List Op, execOps env initState ops = s

/-! ## Heap and map primitive lemmas -/

theorem heapGet_lt_length {h : List (Option GameInfo)} {p : Nat} {r : GameInfo}
    (hg : heapGet h p = some r) : p < h.length := by
  induction h generalizing p with
  | nil => simp [heapGet] at hg
  | cons x t ih =>
    cases p with
    | zero => simp
    | succ n => simpa using ih (p := n) hg

theorem heapSet_length (h : List (Option GameInfo)) (p : Nat) (v : Option GameInfo) :
    (heapSet h p v).length = h.length := by
  induction h generalizing p with
  | nil => rfl
  | cons x t ih =>
    cases p with
    | zero => rfl
    | succ n => simpa [heapSet] using ih (p := n)

theorem heapGet_heapSet_self {h : List (Option GameInfo)} {p : Nat}
    (hp : p < h.length) (v : Option GameInfo) : heapGet (heapSet h p v) p = v := by
  induction h generalizing p with
  | nil => simp at hp
  | cons x t ih =>
    cases p with
    | zero => rfl
    | succ n => exact ih (by simpa using hp)

theorem heapGet_heapSet_other {h : List (Option GameInfo)} {p q : Nat}
    (hpq : p ≠ q) (v : Option GameInfo) : heapGet (heapSet h p v) q = heapGet h q := by
  induction h generalizing p q with
  | nil => rfl
  | cons x t ih =>
    cases p with
    | zero =>
      cases q with
      | zero => exact absurd rfl hpq
      | succ m => rfl
    | succ n =>
      cases q with
      | zero => rfl
      | succ m => exact ih (fun hc => hpq (by rw [hc]))

theorem heapGet_append_lt {h : List (Option GameInfo)} {q : Nat}
    (hq : q < h.length) (x : Option GameInfo) : heapGet (h ++ [x]) q = heapGet h q := by
  induction h generalizing q with
  | nil => simp at hq
  | cons y t ih =>
    cases q with
    | zero => rfl
    | succ n => exact ih (by simpa using hq)

theorem heapGet_append_length (h : List (Option GameInfo)) (x : Option GameInfo) :
    heapGet (h ++ [x]) h.length = x := by
  induction h with
  | nil => rfl
  | cons y t ih => simpa [heapGet] using ih

theorem heapGet_ge_length {h : List (Option GameInfo)} {q : Nat}
    (hq : h.length ≤ q) : heapGet h q = none := by
  induction h generalizing q with
  | nil => rfl
  | cons y t ih =>
    cases q with
    | zero => simp at hq
    | succ n => exact ih (by simpa using hq)

theorem heapModify_length (h : List (Option GameInfo)) (p : Nat)
    (f : GameInfo → GameInfo) : (heapModify h p f).length = h.length := by
  unfold heapModify
  cases hg : heapGet h p with
  | some r => simp [heapSet_length]
  | none => rfl

theorem heapGet_heapModify_other {h : List (Option GameInfo)} {p q : Nat}
    (hpq : p ≠ q) (f : GameInfo → GameInfo) :
    heapGet (heapModify h p f) q = heapGet h q := by
  unfold heapModify
  cases hg : heapGet h p with
  | some r => exact heapGet_heapSet_other hpq _
  | none => rfl

theorem heapGet_heapModify_self {h : List (Option GameInfo)} {p : Nat} {r : GameInfo}
    (hg : heapGet h p = some r) (f : GameInfo → GameInfo) :
    heapGet (heapModify h p f) p = some (f r) := by
  unfold heapModify
  rw [hg]
  exact heapGet_heapSet_self (heapGet_lt_length hg) _

theorem heapModify_of_none {h : List (Option GameInfo)} {p : Nat}
    (hg : heapGet h p = none) (f : GameInfo → GameInfo) : heapModify h p f = h := by
  unfold heapModify
  rw [hg]

theorem mapLookup_mapSet_self (m : List (String × Nat)) (k : String) (v : Nat) :
    mapLookup (mapSet m k v) k = some v := by
  induction m with
  | nil => simp [mapSet, mapLookup]
  | cons kw t ih =>
    obtain ⟨k0, w0⟩ := kw
    by_cases hk : k0 = k
    · simp [mapSet, hk, mapLookup]
    · simp [mapSet, hk, mapLookup, ih]

theorem mapLookup_mapSet_other {k k' : String} (hne : k' ≠ k)
    (m : List (String × Nat)) (v : Nat) :
    mapLookup (mapSet m k v) k' = mapLookup m k' := by
  have hkk : ¬(k = k') := fun h => hne h.symm
  induction m with
  | nil => simp [mapSet, mapLookup, hkk]
  | cons kw t ih =>
    obtain ⟨k0, w0⟩ := kw
    by_cases hk : k0 = k
    · subst hk
      simp [mapSet, mapLookup, hkk]
    · simp [mapSet, hk, mapLookup, ih]

theorem mapLookup_mem {m : List (String × Nat)} {k : String} {p : Nat}
    (hl : mapLookup m k = some p) : (k, p) ∈ m := by
  induction m with
  | nil => simp [mapLookup] at hl
  | cons kw t ih =>
    obtain ⟨k0, w0⟩ := kw
    by_cases hk : k0 = k
    · subst hk
      simp [mapLookup] at hl
      simp [hl]
    · simp [mapLookup, hk] at hl
      exact List.mem_cons_of_mem _ (ih hl)

theorem list_set_get_self {α : Type} : ∀ (l : List α) (i : Nat) (a : α),
    l.get? i = some a → l.set i a = l := by
  intro l
  induction l with
  | nil => intro i a h; cases i <;> simp at h
  | cons x t ih =>
    intro i a h
    cases i with
    | zero =>
      have hx : x = a := by simpa using h
      simp [hx]
    | succ n =>
      show x :: t.set n a = x :: t
      rw [ih n a h]

/-! ## Slot predicates -/

/-- The per-slot exclusion invariant: a slot never holds raw bytes and a
decoded handle at the same time. -/
def slotsOk (r : GameInfo) : Prop :=
  (r.iconTextureData ≠ [] → r.iconTexture = none)
  ∧ (r.pic0TextureData ≠ [] → r.pic0Texture = none)
  ∧ (r.pic1TextureData ≠ [] → r.pic1Texture = none)

/-- A record that a loader task with the given remaining critical
sections may still write: any slot whose raw-byte write is still pending
is fully empty. -/
def pendOk (ws : List FieldWrite) (r : GameInfo) : Prop :=
  ((∃ d, FieldWrite.setIconData d ∈ ws) → r.iconTextureData = [] ∧ r.iconTexture = none)
  ∧ ((∃ d, FieldWrite.setPic0Data d ∈ ws) → r.pic0TextureData = [] ∧ r.pic0Texture = none)
  ∧ ((∃ d, FieldWrite.setPic1Data d ∈ ws) → r.pic1TextureData = [] ∧ r.pic1Texture = none)

/-- Classifier for icon raw-byte writes. -/
def isIconWrite : FieldWrite → Bool
  | FieldWrite.setIconData _ => true
  | _ => false

/-- Classifier for pic0 raw-byte writes. -/
def isPic0Write : FieldWrite → Bool
  | FieldWrite.setPic0Data _ => true
  | _ => false

/-- Classifier for pic1 raw-byte writes. -/
def isPic1Write : FieldWrite → Bool
  | FieldWrite.setPic1Data _ => true
  | _ => false

/-- A loader write list touches each raw slot at most once (true of
every `runProgram`). -/
def writesOnce (ws : List FieldWrite) : Prop :=
  ws.countP isIconWrite ≤ 1 ∧ ws.countP isPic0Write ≤ 1 ∧ ws.countP isPic1Write ≤ 1

/-- A record none of whose payload fields have been populated: empty
title, no metadata, and all three artifact slots `Empty`. -/
def unpopulated (r : GameInfo) : Prop :=
  r.title = "" ∧ r.paramSFO = []
  ∧ r.iconTextureData = [] ∧ r.pic0TextureData = [] ∧ r.pic1TextureData = []
  ∧ r.iconTexture = none ∧ r.pic0Texture = none ∧ r.pic1Texture = none

/-! ## Decode-step lemmas -/

theorem decodeAll_raw (env : Env) (now : Nat) (r : GameInfo) :
    (decodeAll env now r).iconTextureData = []
    ∧ (decodeAll env now r).pic0TextureData = []
    ∧ (decodeAll env now r).pic1TextureData = [] := by
  unfold decodeAll decodePic1 decodePic0 decodeIcon
  split_ifs <;> simp_all

theorem decodeAll_icon_empty (env : Env) (now : Nat) {r : GameInfo}
    (hraw : r.iconTextureData = []) (hh : r.iconTexture = none) :
    (decodeAll env now r).iconTextureData = [] ∧ (decodeAll env now r).iconTexture = none := by
  unfold decodeAll decodePic1 decodePic0 decodeIcon
  split_ifs <;> simp_all

theorem decodeAll_pic0_empty (env : Env) (now : Nat) {r : GameInfo}
    (hraw : r.pic0TextureData = []) (hh : r.pic0Texture = none) :
    (decodeAll env now r).pic0TextureData = [] ∧ (decodeAll env now r).pic0Texture = none := by
  unfold decodeAll decodePic1 decodePic0 decodeIcon
  split_ifs <;> simp_all

theorem decodeAll_pic1_empty (env : Env) (now : Nat) {r : GameInfo}
    (hraw : r.pic1TextureData = []) (hh : r.pic1Texture = none) :
    (decodeAll env now r).pic1TextureData = [] ∧ (decodeAll env now r).pic1Texture = none := by
  unfold decodeAll decodePic1 decodePic0 decodeIcon
  split_ifs <;> simp_all

theorem slotsOk_decoded (env : Env) (now : Nat) (r : GameInfo) :
    slotsOk { decodeAll env now r with lastAccessedTime := now } := by
  have h := decodeAll_raw env now r
  exact ⟨fun hc => absurd h.1 hc, fun hc => absurd h.2.1 hc, fun hc => absurd h.2.2 hc⟩

theorem pendOk_decoded (env : Env) (now : Nat) {ws : List FieldWrite} {r : GameInfo}
    (hp : pendOk ws r) : pendOk ws { decodeAll env now r with lastAccessedTime := now } := by
  obtain ⟨h1, h2, h3⟩ := hp
  refine ⟨fun hw => ?_, fun hw => ?_, fun hw => ?_⟩
  · have := decodeAll_icon_empty env now (h1 hw).1 (h1 hw).2
    simpa using this
  · have := decodeAll_pic0_empty env now (h2 hw).1 (h2 hw).2
    simpa using this
  · have := decodeAll_pic1_empty env now (h3 hw).1 (h3 hw).2
    simpa using this

/-! ## Loader-write lemmas -/

theorem applyWrite_handles (r : GameInfo) (w : FieldWrite) :
    (applyWrite r w).iconTexture = r.iconTexture
    ∧ (applyWrite r w).pic0Texture = r.pic0Texture
    ∧ (applyWrite r w).pic1Texture = r.pic1Texture := by
  cases w <;> exact ⟨rfl, rfl, rfl⟩

theorem batch_handles (ws : List FieldWrite) (r : GameInfo) :
    (ws.foldl applyWrite r).iconTexture = r.iconTexture
    ∧ (ws.foldl applyWrite r).pic0Texture = r.pic0Texture
    ∧ (ws.foldl applyWrite r).pic1Texture = r.pic1Texture := by
  induction ws generalizing r with
  | nil => exact ⟨rfl, rfl, rfl⟩
  | cons w t ih =>
    have h1 := applyWrite_handles r w
    have h2 := ih (applyWrite r w)
    exact ⟨h2.1.trans h1.1, h2.2.1.trans h1.2.1, h2.2.2.trans h1.2.2⟩

theorem batch_icon_raw (ws : List FieldWrite) (r : GameInfo) :
    (ws.foldl applyWrite r).iconTextureData = r.iconTextureData
    ∨ (∃ d, FieldWrite.setIconData d ∈ ws) := by
  induction ws generalizing r with
  | nil => exact Or.inl rfl
  | cons w t ih =>
    rcases ih (applyWrite r w) with h | h
    · cases w with
      | setIconData d => exact Or.inr ⟨d, List.mem_cons_self _ _⟩
      | setFileType ft => exact Or.inl h
      | setSFO tb => exact Or.inl h
      | setPic0Data d => exact Or.inl h
      | setPic1Data d => exact Or.inl h
    · exact Or.inr ⟨h.choose, List.mem_cons_of_mem _ h.choose_spec⟩

theorem batch_pic0_raw (ws : List FieldWrite) (r : GameInfo) :
    (ws.foldl applyWrite r).pic0TextureData = r.pic0TextureData
    ∨ (∃ d, FieldWrite.setPic0Data d ∈ ws) := by
  induction ws generalizing r with
  | nil => exact Or.inl rfl
  | cons w t ih =>
    rcases ih (applyWrite r w) with h | h
    · cases w with
      | setPic0Data d => exact Or.inr ⟨d, List.mem_cons_self _ _⟩
      | setFileType ft => exact Or.inl h
      | setSFO tb => exact Or.inl h
      | setIconData d => exact Or.inl h
      | setPic1Data d => exact Or.inl h
    · exact Or.inr ⟨h.choose, List.mem_cons_of_mem _ h.choose_spec⟩

theorem batch_pic1_raw (ws : List FieldWrite) (r : GameInfo) :
    (ws.foldl applyWrite r).pic1TextureData = r.pic1TextureData
    ∨ (∃ d, FieldWrite.setPic1Data d ∈ ws) := by
  induction ws generalizing r with
  | nil => exact Or.inl rfl
  | cons w t ih =>
    rcases ih (applyWrite r w) with h | h
    · cases w with
      | setPic1Data d => exact Or.inr ⟨d, List.mem_cons_self _ _⟩
      | setFileType ft => exact Or.inl h
      | setSFO tb => exact Or.inl h
      | setIconData d => exact Or.inl h
      | setPic0Data d => exact Or.inl h
    · exact Or.inr ⟨h.choose, List.mem_cons_of_mem _ h.choose_spec⟩

theorem batch_slotsOk {ws : List FieldWrite} {r : GameInfo}
    (hs : slotsOk r) (hp : pendOk ws r) : slotsOk (ws.foldl applyWrite r) := by
  have hh := batch_handles ws r
  refine ⟨fun hraw => ?_, fun hraw => ?_, fun hraw => ?_⟩
  · rcases batch_icon_raw ws r with he | hw
    · rw [hh.1]
      exact hs.1 (he ▸ hraw)
    · rw [hh.1]
      exact (hp.1 hw).2
  · rcases batch_pic0_raw ws r with he | hw
    · rw [hh.2.1]
      exact hs.2.1 (he ▸ hraw)
    · rw [hh.2.1]
      exact (hp.2.1 hw).2
  · rcases batch_pic1_raw ws r with he | hw
    · rw [hh.2.2]
      exact hs.2.2 (he ▸ hraw)
    · rw [hh.2.2]
      exact (hp.2.2 hw).2

theorem slotsOk_applyWrite {w : FieldWrite} {ws : List FieldWrite} {r : GameInfo}
    (hs : slotsOk r) (hp : pendOk (w :: ws) r) : slotsOk (applyWrite r w) := by
  cases w with
  | setFileType ft => exact hs
  | setSFO tb => exact hs
  | setIconData d =>
    exact ⟨fun _ => (hp.1 ⟨d, List.mem_cons_self _ _⟩).2, hs.2.1, hs.2.2⟩
  | setPic0Data d =>
    exact ⟨hs.1, fun _ => (hp.2.1 ⟨d, List.mem_cons_self _ _⟩).2, hs.2.2⟩
  | setPic1Data d =>
    exact ⟨hs.1, hs.2.1, fun _ => (hp.2.2 ⟨d, List.mem_cons_self _ _⟩).2⟩

theorem writesOnce_tail {w : FieldWrite} {ws : List FieldWrite}
    (h : writesOnce (w :: ws)) : writesOnce ws := by
  obtain ⟨h1, h2, h3⟩ := h
  rw [List.countP_cons] at h1 h2 h3
  exact ⟨le_trans (Nat.le_add_right _ _) h1,
         le_trans (Nat.le_add_right _ _) h2,
         le_trans (Nat.le_add_right _ _) h3⟩

theorem no_icon_write_of_head {d0 : List UInt8} {ws : List FieldWrite}
    (h : writesOnce (FieldWrite.setIconData d0 :: ws)) :
    ¬∃ d, FieldWrite.setIconData d ∈ ws := by
  rintro ⟨d, hd⟩
  have h1 := h.1
  rw [List.countP_cons] at h1
  have he : isIconWrite (FieldWrite.setIconData d0) = true := rfl
  rw [he, if_pos rfl] at h1
  have hz : ws.countP isIconWrite = 0 := by omega
  have := List.countP_eq_zero.mp hz _ hd
  simp [isIconWrite] at this

theorem no_pic0_write_of_head {d0 : List UInt8} {ws : List FieldWrite}
    (h : writesOnce (FieldWrite.setPic0Data d0 :: ws)) :
    ¬∃ d, FieldWrite.setPic0Data d ∈ ws := by
  rintro ⟨d, hd⟩
  have h2 := h.2.1
  rw [List.countP_cons] at h2
  have he : isPic0Write (FieldWrite.setPic0Data d0) = true := rfl
  rw [he, if_pos rfl] at h2
  have hz : ws.countP isPic0Write = 0 := by omega
  have := List.countP_eq_zero.mp hz _ hd
  simp [isPic0Write] at this

theorem no_pic1_write_of_head {d0 : List UInt8} {ws : List FieldWrite}
    (h : writesOnce (FieldWrite.setPic1Data d0 :: ws)) :
    ¬∃ d, FieldWrite.setPic1Data d ∈ ws := by
  rintro ⟨d, hd⟩
  have h3 := h.2.2
  rw [List.countP_cons] at h3
  have he : isPic1Write (FieldWrite.setPic1Data d0) = true := rfl
  rw [he, if_pos rfl] at h3
  have hz : ws.countP isPic1Write = 0 := by omega
  have := List.countP_eq_zero.mp hz _ hd
  simp [isPic1Write] at this

theorem pendOk_applyWrite {w : FieldWrite} {ws : List FieldWrite} {r : GameInfo}
    (hp : pendOk (w :: ws) r) (ho : writesOnce (w :: ws)) :
    pendOk ws (applyWrite r w) := by
  refine ⟨fun hw => ?_, fun hw => ?_, fun hw => ?_⟩
  · cases w with
    | setIconData d => exact absurd hw (no_icon_write_of_head ho)
    | setFileType ft => exact hp.1 ⟨hw.choose, List.mem_cons_of_mem _ hw.choose_spec⟩
    | setSFO tb => exact hp.1 ⟨hw.choose, List.mem_cons_of_mem _ hw.choose_spec⟩
    | setPic0Data d => exact hp.1 ⟨hw.choose, List.mem_cons_of_mem _ hw.choose_spec⟩
    | setPic1Data d => exact hp.1 ⟨hw.choose, List.mem_cons_of_mem _ hw.choose_spec⟩
  · cases w with
    | setPic0Data d => exact absurd hw (no_pic0_write_of_head ho)
    | setFileType ft => exact hp.2.1 ⟨hw.choose, List.mem_cons_of_mem _ hw.choose_spec⟩
    | setSFO tb => exact hp.2.1 ⟨hw.choose, List.mem_cons_of_mem _ hw.choose_spec⟩
    | setIconData d => exact hp.2.1 ⟨hw.choose, List.mem_cons_of_mem _ hw.choose_spec⟩
    | setPic1Data d => exact hp.2.1 ⟨hw.choose, List.mem_cons_of_mem _ hw.choose_spec⟩
  · cases w with
    | setPic1Data d => exact absurd hw (no_pic1_write_of_head ho)
    | setFileType ft => exact hp.2.2 ⟨hw.choose, List.mem_cons_of_mem _ hw.choose_spec⟩
    | setSFO tb => exact hp.2.2 ⟨hw.choose, List.mem_cons_of_mem _ hw.choose_spec⟩
    | setIconData d => exact hp.2.2 ⟨hw.choose, List.mem_cons_of_mem _ hw.choose_spec⟩
    | setPic0Data d => exact hp.2.2 ⟨hw.choose, List.mem_cons_of_mem _ hw.choose_spec⟩

/-! ## Flush / clear record lemmas -/

theorem clearRecord_eq_flushRecord (r : GameInfo) : clearRecord r = flushRecord r := rfl

theorem flushRecord_idem (r : GameInfo) : flushRecord (flushRecord r) = flushRecord r := rfl

theorem slotsOk_flushRecord {r : GameInfo} (hs : slotsOk r) : slotsOk (flushRecord r) := by
  exact ⟨hs.1, by simp [flushRecord], by simp [flushRecord]⟩

theorem pendOk_flushRecord {ws : List FieldWrite} {r : GameInfo}
    (hp : pendOk ws r) : pendOk ws (flushRecord r) := by
  exact ⟨fun hw => hp.1 hw, fun _ => ⟨rfl, rfl⟩, fun _ => ⟨rfl, rfl⟩⟩

theorem runProgram_writesOnce (env : Env) (gamePath : String) (wantBG : Bool) :
    writesOnce (runProgram env gamePath wantBG) := by
  unfold runProgram
  repeat' split
  all_goals
    simp [writesOnce, List.countP_append, List.countP_cons, List.countP_nil,
      isIconWrite, isPic0Write, isPic1Write]

/-! ## Fold lemmas for the map-wide record transformers -/

theorem foldModify_length (f : GameInfo → GameInfo) :
    ∀ (l : List (String × Nat)) (h : List (Option GameInfo)),
      (l.foldl (fun h kp => heapModify h kp.2 f) h).length = h.length := by
  intro l
  induction l with
  | nil => intro h; rfl
  | cons kp t ih =>
    intro h
    simpa [heapModify_length] using ih (heapModify h kp.2 f)

theorem foldModify_get (f : GameInfo → GameInfo) (hidem : ∀ r, f (f r) = f r) :
    ∀ (l : List (String × Nat)) (h : List (Option GameInfo)) (q : Nat),
      heapGet (l.foldl (fun h kp => heapModify h kp.2 f) h) q = heapGet h q
      ∨ ∃ r, heapGet h q = some r
          ∧ heapGet (l.foldl (fun h kp => heapModify h kp.2 f) h) q = some (f r) := by
  intro l
  induction l with
  | nil => intro h q; exact Or.inl rfl
  | cons kp t ih =>
    intro h q
    rw [List.foldl_cons]
    by_cases hpq : kp.2 = q
    · subst hpq
      cases hg : heapGet h kp.2 with
      | none =>
        have hm : heapModify h kp.2 f = h := heapModify_of_none hg f
        rw [hm]
        rcases ih h kp.2 with he | ⟨r1, hr1, hres⟩
        · exact Or.inl (he.trans hg)
        · rw [hg] at hr1
          cases hr1
      | some r =>
        have h1 : heapGet (heapModify h kp.2 f) kp.2 = some (f r) :=
          heapGet_heapModify_self hg f
        rcases ih (heapModify h kp.2 f) kp.2 with he | ⟨r1, hr1, hres⟩
        · exact Or.inr ⟨r, rfl, he.trans h1⟩
        · rw [h1] at hr1
          obtain rfl : f r = r1 := by injection hr1
          rw [hidem r] at hres
          exact Or.inr ⟨r, rfl, hres⟩
    · have h1 : heapGet (heapModify h kp.2 f) q = heapGet h q :=
        heapGet_heapModify_other hpq f
      rcases ih (heapModify h kp.2 f) q with he | ⟨r1, hr1, hres⟩
      · exact Or.inl (he.trans h1)
      · rw [h1] at hr1
        exact Or.inr ⟨r1, hr1, hres⟩

theorem foldModify_get_fix (f : GameInfo → GameInfo) :
    ∀ (l : List (String × Nat)) (h : List (Option GameInfo)) (q : Nat) (r : GameInfo),
      heapGet h q = some r → f r = r →
      heapGet (l.foldl (fun h kp => heapModify h kp.2 f) h) q = some r := by
  intro l
  induction l with
  | nil => intro h q r hg _; exact hg
  | cons kp t ih =>
    intro h q r hg hfix
    by_cases hpq : kp.2 = q
    · subst hpq
      have h1 : heapGet (heapModify h kp.2 f) kp.2 = some (f r) :=
        heapGet_heapModify_self hg f
      rw [hfix] at h1
      exact ih _ _ _ h1 hfix
    · have h1 : heapGet (heapModify h kp.2 f) q = heapGet h q :=
        heapGet_heapModify_other hpq f
      exact ih _ _ _ (h1.trans hg) hfix

theorem foldModify_get_mem (f : GameInfo → GameInfo) (hidem : ∀ r, f (f r) = f r) :
    ∀ (l : List (String × Nat)) (h : List (Option GameInfo)) (q : Nat) (r : GameInfo),
      (∃ k, (k, q) ∈ l) → heapGet h q = some r →
      heapGet (l.foldl (fun h kp => heapModify h kp.2 f) h) q = some (f r) := by
  intro l
  induction l with
  | nil =>
    intro h q r hmem _
    exact absurd hmem.choose_spec (List.not_mem_nil _)
  | cons kp t ih =>
    intro h q r hmem hg
    by_cases hpq : kp.2 = q
    · subst hpq
      have h1 : heapGet (heapModify h kp.2 f) kp.2 = some (f r) :=
        heapGet_heapModify_self hg f
      exact foldModify_get_fix f t _ _ _ h1 (hidem r)
    · have h1 : heapGet (heapModify h kp.2 f) q = heapGet h q :=
        heapGet_heapModify_other hpq f
      obtain ⟨k, hk⟩ := hmem
      rcases List.mem_cons.mp hk with he | ht
      · exact absurd (congrArg Prod.snd he).symm hpq
      · exact ih _ _ _ ⟨k, ht⟩ (h1.trans hg)

theorem foldModify_get_not_mem (f : GameInfo → GameInfo) :
    ∀ (l : List (String × Nat)) (h : List (Option GameInfo)) (q : Nat),
      (∀ k, (k, q) ∉ l) →
      heapGet (l.foldl (fun h kp => heapModify h kp.2 f) h) q = heapGet h q := by
  intro l
  induction l with
  | nil => intro h q _; rfl
  | cons kp t ih =>
    intro h q hnm
    have hpq : kp.2 ≠ q := by
      intro hc
      exact hnm kp.1 (by simp [← hc])
    have h1 : heapGet (heapModify h kp.2 f) q = heapGet h q :=
      heapGet_heapModify_other hpq f
    have ht : ∀ k, (k, q) ∉ t := fun k hk => hnm k (List.mem_cons_of_mem _ hk)
    exact (ih _ _ ht).trans h1

/-! ## Drain lemmas for `Clear` -/

theorem drainItem_live {h : List (Option GameInfo)} {b : Bool} {item : WorkItem}
    {r : GameInfo} (hg : heapGet h item.ptr = some r) :
    drainItem (h, b) item = (heapSet h item.ptr (some (item.writes.foldl applyWrite r)), b) := by
  unfold drainItem
  rw [hg]

theorem drainItem_dead {h : List (Option GameInfo)} {b : Bool} {item : WorkItem}
    (hg : heapGet h item.ptr = none) :
    drainItem (h, b) item = (h, b || !item.writes.isEmpty) := by
  unfold drainItem
  rw [hg]

theorem drain_length : ∀ (queue : List WorkItem) (h : List (Option GameInfo)) (b : Bool),
    ((queue.foldl drainItem (h, b)).1).length = h.length := by
  intro queue
  induction queue with
  | nil => intro h b; rfl
  | cons item t ih =>
    intro h b
    rw [List.foldl_cons]
    cases hg : heapGet h item.ptr with
    | some r =>
      rw [drainItem_live hg, ih _ b, heapSet_length]
    | none =>
      rw [drainItem_dead hg]
      exact ih _ _

theorem drain_get_no_item :
    ∀ (queue : List WorkItem) (h : List (Option GameInfo)) (b : Bool) (q : Nat),
      (∀ item ∈ queue, item.ptr ≠ q) →
      heapGet ((queue.foldl drainItem (h, b)).1) q = heapGet h q := by
  intro queue
  induction queue with
  | nil => intro h b q _; rfl
  | cons item t ih =>
    intro h b q hni
    have hne : item.ptr ≠ q := hni item (List.mem_cons_self _ _)
    have ht : ∀ it ∈ t, it.ptr ≠ q := fun it hit => hni it (List.mem_cons_of_mem _ hit)
    rw [List.foldl_cons]
    cases hg : heapGet h item.ptr with
    | some r =>
      rw [drainItem_live hg]
      exact (ih _ b q ht).trans (heapGet_heapSet_other hne _)
    | none =>
      rw [drainItem_dead hg]
      exact ih _ _ q ht

theorem nodup_map_get_unique :
    ∀ (l : List WorkItem) (i j : Nat) (a1 a2 : WorkItem),
      (l.map WorkItem.ptr).Nodup → l.get? i = some a1 → l.get? j = some a2 →
      a1.ptr = a2.ptr → i = j := by
  intro l
  induction l with
  | nil => intro i j a1 a2 _ h1; cases i <;> simp at h1
  | cons x t ih =>
    intro i j a1 a2 hnd h1 h2 hptr
    have hpair : (∀ y ∈ t, ¬ y.ptr = x.ptr) ∧ (t.map WorkItem.ptr).Nodup := by
      simpa using hnd
    cases i with
    | zero =>
      cases j with
      | zero => rfl
      | succ m =>
        exfalso
        have ha1 : x = a1 := Option.some.inj h1
        have ha2 : a2 ∈ t := List.get?_mem h2
        exact hpair.1 a2 ha2 (by rw [← hptr, ← ha1])
    | succ n =>
      cases j with
      | zero =>
        exfalso
        have ha2 : x = a2 := Option.some.inj h2
        have ha1 : a1 ∈ t := List.get?_mem h1
        exact hpair.1 a1 ha1 (by rw [hptr, ← ha2])
      | succ m =>
        have := ih n m a1 a2 hpair.2 h1 h2 hptr
        omega

theorem list_get_set_ne {α : Type} :
    ∀ (l : List α) (i j : Nat) (a : α), i ≠ j → (l.set i a).get? j = l.get? j := by
  intro l
  induction l with
  | nil => intro i j a _; rfl
  | cons x t ih =>
    intro i j a hij
    cases i with
    | zero =>
      cases j with
      | zero => exact absurd rfl hij
      | succ m => rfl
    | succ n =>
      cases j with
      | zero => rfl
      | succ m => exact ih n m a (fun hc => hij (by rw [hc]))

theorem list_get_set_self {α : Type} :
    ∀ (l : List α) (i : Nat) (a b : α), l.get? i = some b → (l.set i a).get? i = some a := by
  intro l
  induction l with
  | nil => intro i a b h; cases i <;> simp at h
  | cons x t ih =>
    intro i a b h
    cases i with
    | zero => rfl
    | succ n => exact ih n a b h

theorem list_get_map {α β : Type} (f : α → β) :
    ∀ (l : List α) (i : Nat) (a : α), l.get? i = some a → (l.map f).get? i = some (f a) := by
  intro l
  induction l with
  | nil => intro i a h; cases i <;> simp at h
  | cons x t ih =>
    intro i a h
    cases i with
    | zero => rw [show a = x from (Option.some.inj h).symm]; rfl
    | succ n => exact ih n a h

theorem map_ptr_set {queue : List WorkItem} {i : Nat} {item : WorkItem}
    (hget : queue.get? i = some item) (ws : List FieldWrite) :
    (queue.set i { item with writes := ws }).map WorkItem.ptr = queue.map WorkItem.ptr := by
  rw [List.map_set]
  have hm : (queue.map WorkItem.ptr).get? i = some item.ptr := list_get_map WorkItem.ptr _ _ _ hget
  have he : ({ item with writes := ws } : WorkItem).ptr = item.ptr := rfl
  rw [he]
  exact list_set_get_self _ _ _ hm

/-! ## The global cache invariant -/

/-- The inductive invariant of the cache: per-record slot exclusion,
mapped pointers live and injective, queue items in bounds with distinct
pointers, each loader write list touching each slot at most once, and
any slot a live record's loader may still write being fully empty. -/
structure Inv (s : CacheState) : Prop where
  heapOk : ∀ p r, heapGet s.heap p = some r → slotsOk r
  mapLive : ∀ k p, mapLookup s.infoMap k = some p → ∃ r, heapGet s.heap p = some r
  mapInj : ∀ k1 k2 p, mapLookup s.infoMap k1 = some p →
    mapLookup s.infoMap k2 = some p → k1 = k2
  queueLt : ∀ item ∈ s.queue, item.ptr < s.heap.length
  queueNodup : (s.queue.map WorkItem.ptr).Nodup
  queueOnce : ∀ item ∈ s.queue, writesOnce item.writes
  pend : ∀ item ∈ s.queue, ∀ r, heapGet s.heap item.ptr = some r → pendOk item.writes r

theorem slotsOk_init (w : Bool) : slotsOk (initRecord w) := by
  refine ⟨fun hc => ?_, fun hc => ?_, fun hc => ?_⟩ <;> exact absurd rfl hc

theorem pendOk_init (ws : List FieldWrite) (w : Bool) : pendOk ws (initRecord w) :=
  ⟨fun _ => ⟨rfl, rfl⟩, fun _ => ⟨rfl, rfl⟩, fun _ => ⟨rfl, rfl⟩⟩

theorem inv_init : Inv initState := by
  refine ⟨?_, ?_, ?_, ?_, ?_, ?_, ?_⟩
  · intro p r h
    cases p <;> simp [initState, heapGet] at h
  · intro k p h
    simp [initState, mapLookup] at h
  · intro k1 k2 p h
    simp [initState, mapLookup] at h
  · intro item h
    simp [initState] at h
  · simp [initState]
  · intro item h
    simp [initState] at h
  · intro item h
    simp [initState] at h

theorem createRecord_inv (env : Env) (h0 : List (Option GameInfo))
    (m : List (String × Nat)) (queue : List WorkItem) (b : Bool)
    (gamePath : String) (wantBG : Bool)
    (Hheap : ∀ p r, heapGet h0 p = some r → slotsOk r)
    (HmapL : ∀ k p, k ≠ gamePath → mapLookup m k = some p → ∃ r, heapGet h0 p = some r)
    (HmapI : ∀ k1 k2 p, k1 ≠ gamePath → k2 ≠ gamePath → mapLookup m k1 = some p →
      mapLookup m k2 = some p → k1 = k2)
    (HqLt : ∀ item ∈ queue, item.ptr < h0.length)
    (HqNd : (queue.map WorkItem.ptr).Nodup)
    (HqOnce : ∀ item ∈ queue, writesOnce item.writes)
    (Hpend : ∀ item ∈ queue, ∀ r, heapGet h0 item.ptr = some r → pendOk item.writes r) :
    Inv (createRecord env ⟨h0, m, queue, b⟩ gamePath wantBG).2 := by
  have hlen : (h0 ++ [some (initRecord wantBG)]).length = h0.length + 1 := by
    simp
  dsimp only [createRecord]
  refine ⟨?_, ?_, ?_, ?_, ?_, ?_, ?_⟩
  · -- heapOk
    intro p r hg
    rcases Nat.lt_trichotomy p h0.length with hlt | heq | hgt
    · rw [heapGet_append_lt hlt] at hg
      exact Hheap p r hg
    · subst heq
      rw [heapGet_append_length] at hg
      obtain rfl : initRecord wantBG = r := by injection hg
      exact slotsOk_init wantBG
    · rw [heapGet_ge_length (by omega : (h0 ++ [some (initRecord wantBG)]).length ≤ p)] at hg
      cases hg
  · -- mapLive
    intro k p hl
    by_cases hk : k = gamePath
    · subst hk
      rw [mapLookup_mapSet_self] at hl
      obtain rfl : h0.length = p := by injection hl
      exact ⟨_, heapGet_append_length h0 _⟩
    · rw [mapLookup_mapSet_other hk] at hl
      obtain ⟨r, hr⟩ := HmapL k p hk hl
      exact ⟨r, (heapGet_append_lt (heapGet_lt_length hr) _).trans hr⟩
  · -- mapInj
    intro k1 k2 p hl1 hl2
    by_cases hk1 : k1 = gamePath
    · rw [hk1, mapLookup_mapSet_self] at hl1
      obtain rfl : h0.length = p := by injection hl1
      by_cases hk2 : k2 = gamePath
      · rw [hk1, hk2]
      · rw [mapLookup_mapSet_other hk2] at hl2
        obtain ⟨r, hr⟩ := HmapL k2 _ hk2 hl2
        exact absurd (heapGet_lt_length hr) (Nat.lt_irrefl _)
    · rw [mapLookup_mapSet_other hk1] at hl1
      by_cases hk2 : k2 = gamePath
      · rw [hk2, mapLookup_mapSet_self] at hl2
        obtain rfl : h0.length = p := by injection hl2
        obtain ⟨r, hr⟩ := HmapL k1 _ hk1 hl1
        exact absurd (heapGet_lt_length hr) (Nat.lt_irrefl _)
      · rw [mapLookup_mapSet_other hk2] at hl2
        exact HmapI k1 k2 p hk1 hk2 hl1 hl2
  · -- queueLt
    intro item hm
    rw [hlen]
    rcases List.mem_append.mp hm with hm | hm
    · exact Nat.lt_succ_of_lt (HqLt item hm)
    · obtain rfl : item = _ := by simpa using hm
      exact Nat.lt_succ_self _
  · -- queueNodup
    rw [List.map_append]
    have hnin : (h0.length : Nat) ∉ queue.map WorkItem.ptr := by
      intro hc
      obtain ⟨it, hit, hpt⟩ := List.mem_map.mp hc
      exact absurd (hpt ▸ HqLt it hit) (Nat.lt_irrefl _)
    exact List.nodup_append.mpr ⟨HqNd, List.nodup_singleton _,
      by simpa [List.disjoint_singleton] using hnin⟩
  · -- queueOnce
    intro item hm
    rcases List.mem_append.mp hm with hm | hm
    · exact HqOnce item hm
    · obtain rfl : item = _ := by simpa using hm
      exact runProgram_writesOnce env gamePath wantBG
  · -- pend
    intro item hm r hg
    rcases List.mem_append.mp hm with hm | hm
    · rw [heapGet_append_lt (HqLt item hm)] at hg
      exact Hpend item hm r hg
    · obtain rfl : item = _ := by simpa using hm
      have hg2 : heapGet (h0 ++ [some (initRecord wantBG)]) h0.length = some r := hg
      rw [heapGet_append_length] at hg2
      obtain rfl : initRecord wantBG = r := by injection hg2
      exact pendOk_init _ wantBG

theorem inv_getInfo (env : Env) (s : CacheState) (gamePath : String) (wantBG : Bool)
    (now : Nat) (hinv : Inv s) : Inv (GetInfo env s gamePath wantBG now).2 := by
  obtain ⟨h0, m, queue, b⟩ := s
  have hheap := hinv.heapOk
  have hmapL := hinv.mapLive
  have hmapI := hinv.mapInj
  have hqlt := hinv.queueLt
  have hqnd := hinv.queueNodup
  have hqonce := hinv.queueOnce
  have hpend := hinv.pend
  unfold GetInfo
  cases hlk : mapLookup m gamePath with
  | none =>
    exact createRecord_inv env h0 m queue b gamePath wantBG hheap
      (fun k p _ hl => hmapL k p hl) (fun k1 k2 p _ _ h1 h2 => hmapI k1 k2 p h1 h2)
      hqlt hqnd hqonce hpend
  | some p =>
    cases hg : heapGet h0 p with
    | none =>
      obtain ⟨r, hr⟩ := hmapL gamePath p hlk
      rw [hg] at hr
      exact Option.noConfusion hr
    | some info =>
      have hp : p < h0.length := heapGet_lt_length hg
      dsimp only
      rw [hg]
      dsimp only
      by_cases hesc : (!info.wantBG && wantBG) = true
      · rw [if_pos hesc]
        refine createRecord_inv env (heapSet h0 p none) m queue b gamePath wantBG
          ?_ ?_ (fun k1 k2 q _ _ h1 h2 => hmapI k1 k2 q h1 h2) ?_ hqnd hqonce ?_
        · intro q r hq
          by_cases hqp : p = q
          · subst hqp
            rw [heapGet_heapSet_self hp] at hq
            exact Option.noConfusion hq
          · rw [heapGet_heapSet_other hqp] at hq
            exact hheap q r hq
        · intro k q hk hl
          have hqp : p ≠ q := by
            intro hc
            subst hc
            exact hk (hmapI k gamePath p hl hlk)
          rw [heapGet_heapSet_other hqp]
          exact hmapL k q hl
        · intro item hm
          rw [heapSet_length]
          exact hqlt item hm
        · intro item hm r hq
          by_cases hqp : p = item.ptr
          · rw [← hqp, heapGet_heapSet_self hp] at hq
            exact Option.noConfusion hq
          · rw [heapGet_heapSet_other hqp] at hq
            exact hpend item hm r hq
      · rw [if_neg hesc]
        refine ⟨?_, ?_, fun k1 k2 q h1 h2 => hmapI k1 k2 q h1 h2, ?_, hqnd, hqonce, ?_⟩
        · intro q r hq
          by_cases hqp : p = q
          · subst hqp
            rw [heapGet_heapSet_self hp] at hq
            obtain rfl : _ = r := by injection hq
            exact slotsOk_decoded env now info
          · rw [heapGet_heapSet_other hqp] at hq
            exact hheap q r hq
        · intro k q hl
          by_cases hqp : p = q
          · subst hqp
            exact ⟨_, heapGet_heapSet_self hp _⟩
          · rw [heapGet_heapSet_other hqp]
            exact hmapL k q hl
        · intro item hm
          rw [heapSet_length]
          exact hqlt item hm
        · intro item hm r hq
          by_cases hqp : p = item.ptr
          · rw [← hqp, heapGet_heapSet_self hp] at hq
            obtain rfl : _ = r := by injection hq
            refine pendOk_decoded env now ?_
            exact hpend item hm info (by rw [← hqp] at *; exact hg)
          · rw [heapGet_heapSet_other hqp] at hq
            exact hpend item hm r hq

theorem inv_runStep (s : CacheState) (i : Nat) (hinv : Inv s) : Inv (RunStep s i) := by
  obtain ⟨h0, m, queue, b⟩ := s
  have hheap := hinv.heapOk
  have hmapL := hinv.mapLive
  have hmapI := hinv.mapInj
  have hqlt := hinv.queueLt
  have hqnd := hinv.queueNodup
  have hqonce := hinv.queueOnce
  have hpend := hinv.pend
  unfold RunStep
  dsimp only
  cases hq : queue.get? i with
  | none => exact hinv
  | some item =>
    have hmem : item ∈ queue := List.get?_mem hq
    dsimp only
    cases hws : item.writes with
    | nil =>
      refine ⟨hheap, hmapL, hmapI, ?_, ?_, ?_, ?_⟩
      · intro it hm
        exact hqlt it ((List.eraseIdx_sublist queue i).subset hm)
      · exact hqnd.sublist ((List.eraseIdx_sublist queue i).map WorkItem.ptr)
      · intro it hm
        exact hqonce it ((List.eraseIdx_sublist queue i).subset hm)
      · intro it hm r hg
        exact hpend it ((List.eraseIdx_sublist queue i).subset hm) r hg
    | cons w ws =>
      have honce : writesOnce (w :: ws) := by
        have := hqonce item hmem
        rwa [hws] at this
      have hpOk : ∀ r, heapGet h0 item.ptr = some r → pendOk (w :: ws) r := by
        intro r hg
        have := hpend item hmem r hg
        rwa [hws] at this
      have hlt : item.ptr < h0.length := hqlt item hmem
      dsimp only
      cases hg : heapGet h0 item.ptr with
      | some r =>
        dsimp only
        refine ⟨?_, ?_, hmapI, ?_, ?_, ?_, ?_⟩
        · intro q r' hq'
          by_cases hqp : item.ptr = q
          · subst hqp
            rw [heapGet_heapSet_self hlt] at hq'
            obtain rfl : applyWrite r w = r' := by injection hq'
            exact slotsOk_applyWrite (hheap _ _ hg) (hpOk r hg)
          · rw [heapGet_heapSet_other hqp] at hq'
            exact hheap q r' hq'
        · intro k q hl
          by_cases hqp : item.ptr = q
          · subst hqp
            exact ⟨_, heapGet_heapSet_self hlt _⟩
          · rw [heapGet_heapSet_other hqp]
            exact hmapL k q hl
        · intro it hm
          rw [heapSet_length]
          rcases List.mem_or_eq_of_mem_set hm with hm | rfl
          · exact hqlt it hm
          · exact hlt
        · rw [map_ptr_set hq ws]
          exact hqnd
        · intro it hm
          rcases List.mem_or_eq_of_mem_set hm with hm | rfl
          · exact hqonce it hm
          · exact writesOnce_tail honce
        · intro it hm r' hq'
          obtain ⟨j, hj⟩ := List.mem_iff_get?.mp hm
          by_cases hij : i = j
          · subst hij
            have hit : it = { item with writes := ws } := by
              have := list_get_set_self queue i { item with writes := ws } item hq
              rw [this] at hj
              exact (Option.some.inj hj).symm
            subst hit
            have hptr : ({ item with writes := ws } : WorkItem).ptr = item.ptr := rfl
            rw [hptr, heapGet_heapSet_self hlt] at hq'
            obtain rfl : applyWrite r w = r' := by injection hq'
            exact pendOk_applyWrite (hpOk r hg) honce
          · rw [list_get_set_ne queue i j _ hij] at hj
            have hmq : it ∈ queue := List.get?_mem hj
            by_cases hqp : it.ptr = item.ptr
            · exact absurd (nodup_map_get_unique queue j i it item hqnd hj hq hqp) (fun hc => hij hc.symm)
            · rw [heapGet_heapSet_other (fun hc => hqp hc.symm)] at hq'
              exact hpend it hmq r' hq'
      | none =>
        dsimp only
        refine ⟨hheap, hmapL, hmapI, ?_, ?_, ?_, ?_⟩
        · intro it hm
          rcases List.mem_or_eq_of_mem_set hm with hm | rfl
          · exact hqlt it hm
          · exact hlt
        · rw [map_ptr_set hq ws]
          exact hqnd
        · intro it hm
          rcases List.mem_or_eq_of_mem_set hm with hm | rfl
          · exact hqonce it hm
          · exact writesOnce_tail honce
        · intro it hm r' hq'
          rcases List.mem_or_eq_of_mem_set hm with hm | rfl
          · exact hpend it hm r' hq'
          · have hptr : ({ item with writes := ws } : WorkItem).ptr = item.ptr := rfl
            rw [hptr, hg] at hq'
            exact Option.noConfusion hq'

theorem inv_flushBGs (s : CacheState) (hinv : Inv s) : Inv (FlushBGs s) := by
  obtain ⟨h0, m, queue, b⟩ := s
  have hheap := hinv.heapOk
  have hmapL := hinv.mapLive
  have hmapI := hinv.mapInj
  have hqlt := hinv.queueLt
  have hqnd := hinv.queueNodup
  have hqonce := hinv.queueOnce
  have hpend := hinv.pend
  unfold FlushBGs
  dsimp only
  refine ⟨?_, ?_, hmapI, ?_, hqnd, hqonce, ?_⟩
  · intro q r' hq'
    rcases foldModify_get flushRecord flushRecord_idem m h0 q with he | ⟨r, hr, heq⟩
    · rw [he] at hq'
      exact hheap q r' hq'
    · rw [heq] at hq'
      obtain rfl : flushRecord r = r' := by injection hq'
      exact slotsOk_flushRecord (hheap q r hr)
  · intro k q hl
    obtain ⟨r, hr⟩ := hmapL k q hl
    rcases foldModify_get flushRecord flushRecord_idem m h0 q with he | ⟨r1, _, heq⟩
    · exact ⟨r, he.trans hr⟩
    · exact ⟨flushRecord r1, heq⟩
  · intro it hm
    rw [foldModify_length]
    exact hqlt it hm
  · intro it hm r' hq'
    rcases foldModify_get flushRecord flushRecord_idem m h0 it.ptr with he | ⟨r, hr, heq⟩
    · rw [he] at hq'
      exact hpend it hm r' hq'
    · rw [heq] at hq'
      obtain rfl : flushRecord r = r' := by injection hq'
      exact pendOk_flushRecord (hpend it hm r hr)

theorem drain_heapOk :
    ∀ (queue : List WorkItem) (h : List (Option GameInfo)) (b : Bool),
      (∀ p r, heapGet h p = some r → slotsOk r) →
      (∀ item ∈ queue, ∀ r, heapGet h item.ptr = some r → pendOk item.writes r) →
      (queue.map WorkItem.ptr).Nodup →
      ∀ p r, heapGet ((queue.foldl drainItem (h, b)).1) p = some r → slotsOk r := by
  intro queue
  induction queue with
  | nil => intro h b hOk _ _ p r hg; exact hOk p r hg
  | cons item t ih =>
    intro h b hOk hpend hnd p r hg
    rw [List.foldl_cons] at hg
    have hpair : (∀ y ∈ t, ¬ y.ptr = item.ptr) ∧ (t.map WorkItem.ptr).Nodup := by
      simpa using hnd
    cases hg0 : heapGet h item.ptr with
    | some r0 =>
      rw [drainItem_live hg0] at hg
      have hlt : item.ptr < h.length := heapGet_lt_length hg0
      refine ih _ b ?_ ?_ hpair.2 p r hg
      · intro q r' hq'
        by_cases hqp : item.ptr = q
        · subst hqp
          rw [heapGet_heapSet_self hlt] at hq'
          obtain rfl : _ = r' := by injection hq'
          exact batch_slotsOk (hOk _ _ hg0) (hpend item (List.mem_cons_self _ _) r0 hg0)
        · rw [heapGet_heapSet_other hqp] at hq'
          exact hOk q r' hq'
      · intro it hm r' hq'
        have hne : item.ptr ≠ it.ptr := fun hc => hpair.1 it hm hc.symm
        rw [heapGet_heapSet_other hne] at hq'
        exact hpend it (List.mem_cons_of_mem _ hm) r' hq'
    | none =>
      rw [drainItem_dead hg0] at hg
      exact ih h _ hOk (fun it hm => hpend it (List.mem_cons_of_mem _ hm)) hpair.2 p r hg

theorem inv_clear (s : CacheState) (hinv : Inv s) : Inv (Clear s) := by
  obtain ⟨h0, m, queue, b⟩ := s
  have hheap := hinv.heapOk
  have hqnd := hinv.queueNodup
  have hpend := hinv.pend
  unfold Clear
  dsimp only
  have h1Ok : ∀ p r, heapGet ((queue.foldl drainItem (h0, b)).1) p = some r → slotsOk r :=
    drain_heapOk queue h0 b hheap hpend hqnd
  refine ⟨?_, ?_, ?_, ?_, ?_, ?_, ?_⟩
  · intro q r hq
    rcases foldModify_get clearRecord (fun r => rfl) m _ q with he | ⟨r1, hr1, heq⟩
    · rw [he] at hq
      exact h1Ok q r hq
    · rw [heq] at hq
      obtain rfl : clearRecord r1 = r := by injection hq
      rw [clearRecord_eq_flushRecord]
      exact slotsOk_flushRecord (h1Ok q r1 hr1)
  · intro k p hl
    simp [mapLookup] at hl
  · intro k1 k2 p hl
    simp [mapLookup] at hl
  · intro it hm
    simp at hm
  · simp
  · intro it hm
    simp at hm
  · intro it hm
    simp at hm

theorem inv_applyOp (env : Env) (s : CacheState) (op : Op) (hinv : Inv s) :
    Inv (applyOp env s op) := by
  cases op with
  | opGetInfo gamePath wantBG now => exact inv_getInfo env s gamePath wantBG now hinv
  | opRunStep i => exact inv_runStep s i hinv
  | opFlushBGs => exact inv_flushBGs s hinv
  | opClear => exact inv_clear s hinv

theorem inv_execOps (env : Env) :
    ∀ (ops : List Op) (s : CacheState), Inv s → Inv (execOps env s ops) := by
  intro ops
  induction ops with
  | nil => intro s hinv; exact hinv
  | cons op t ih =>
    intro s hinv
    exact ih (applyOp env s op) (inv_applyOp env s op hinv)

theorem reachable_inv {env : Env} {s : CacheState} (hr : Reachable env s) : Inv s := by
  obtain ⟨ops, rfl⟩ := hr
  exact inv_execOps env ops initState inv_init

/-! ## Persistence of never-populated records -/

theorem decodeAll_of_empty (env : Env) (now : Nat) {r : GameInfo}
    (h1 : r.iconTextureData = []) (h2 : r.pic0TextureData = [])
    (h3 : r.pic1TextureData = []) : decodeAll env now r = r := by
  unfold decodeAll decodePic1 decodePic0 decodeIcon
  simp [h1, h2, h3]

theorem unpopulated_flushRecord {r : GameInfo} (h : unpopulated r) :
    unpopulated (flushRecord r) :=
  ⟨h.1, h.2.1, h.2.2.1, rfl, rfl, h.2.2.2.2.2.1, rfl, rfl⟩

/-- A record that can no longer change except by being freed: it is in
bounds, no loader task is bound to it, and it is either already freed or
a never-populated record with the given kind and `wantBG`. -/
def frozenAt (s : CacheState) (p : Nat) (ft : FileType) (w : Bool) : Prop :=
  p < s.heap.length
  ∧ (∀ item ∈ s.queue, item.ptr ≠ p)
  ∧ (heapGet s.heap p = none
     ∨ ∃ r, heapGet s.heap p = some r ∧ unpopulated r ∧ r.fileType = ft ∧ r.wantBG = w)

theorem frozen_createRecord (env : Env) (s : CacheState) (gamePath : String)
    (wantBG : Bool) {p : Nat} {ft : FileType} {w : Bool} (hf : frozenAt s p ft w) :
    frozenAt (createRecord env s gamePath wantBG).2 p ft w := by
  obtain ⟨h0, m, queue, b⟩ := s
  obtain ⟨hlt, hni, hcell⟩ := hf
  have hlt0 : p < h0.length := hlt
  have hni0 : ∀ item ∈ queue, item.ptr ≠ p := hni
  have hcell0 : heapGet h0 p = none
      ∨ ∃ r, heapGet h0 p = some r ∧ unpopulated r ∧ r.fileType = ft ∧ r.wantBG = w := hcell
  refine ⟨?_, ?_, ?_⟩
  · show p < (h0 ++ [some (initRecord wantBG)]).length
    simp
    omega
  · show ∀ item ∈ queue ++ [(⟨gamePath, h0.length, runProgram env gamePath wantBG⟩ : WorkItem)],
      item.ptr ≠ p
    intro item hm
    rcases List.mem_append.mp hm with hm | hm
    · exact hni0 item hm
    · obtain rfl : item = _ := by simpa using hm
      show h0.length ≠ p
      omega
  · show heapGet (h0 ++ [some (initRecord wantBG)]) p = none
      ∨ ∃ r, heapGet (h0 ++ [some (initRecord wantBG)]) p = some r
          ∧ unpopulated r ∧ r.fileType = ft ∧ r.wantBG = w
    rw [heapGet_append_lt hlt0]
    exact hcell0

theorem frozen_getInfo (env : Env) (s : CacheState) (gamePath : String) (wantBG : Bool)
    (now : Nat) {p : Nat} {ft : FileType} {w : Bool} (hf : frozenAt s p ft w) :
    frozenAt (GetInfo env s gamePath wantBG now).2 p ft w := by
  obtain ⟨h0, m, queue, b⟩ := s
  obtain ⟨hlt, hni, hcell⟩ := hf
  unfold GetInfo
  cases hlk : mapLookup m gamePath with
  | none => exact frozen_createRecord env _ gamePath wantBG ⟨hlt, hni, hcell⟩
  | some q =>
    dsimp only
    cases hg : heapGet h0 q with
    | none =>
      dsimp only
      exact frozen_createRecord env ⟨h0, m, queue, b⟩ gamePath wantBG ⟨hlt, hni, hcell⟩
    | some info =>
      have hq : q < h0.length := heapGet_lt_length hg
      dsimp only
      by_cases hesc : (!info.wantBG && wantBG) = true
      · rw [if_pos hesc]
        refine frozen_createRecord env _ gamePath wantBG ⟨by rw [heapSet_length]; exact hlt, hni, ?_⟩
        by_cases hqp : q = p
        · subst hqp
          exact Or.inl (heapGet_heapSet_self hq none)
        · rw [heapGet_heapSet_other hqp]
          exact hcell
      · rw [if_neg hesc]
        refine ⟨by rw [heapSet_length]; exact hlt, hni, ?_⟩
        by_cases hqp : q = p
        · subst hqp
          rcases hcell with hnone | ⟨r, hr, hunp, hft, hw⟩
          · rw [hg] at hnone
            exact Option.noConfusion hnone
          · rw [hg] at hr
            obtain rfl : info = r := by injection hr
            refine Or.inr ⟨_, heapGet_heapSet_self hq _, ?_, ?_, ?_⟩
            · rw [decodeAll_of_empty env now hunp.2.2.1 hunp.2.2.2.1 hunp.2.2.2.2.1]
              exact ⟨hunp.1, hunp.2.1, hunp.2.2.1, hunp.2.2.2.1, hunp.2.2.2.2.1,
                hunp.2.2.2.2.2.1, hunp.2.2.2.2.2.2.1, hunp.2.2.2.2.2.2.2⟩
            · rw [decodeAll_of_empty env now hunp.2.2.1 hunp.2.2.2.1 hunp.2.2.2.2.1]
              exact hft
            · rw [decodeAll_of_empty env now hunp.2.2.1 hunp.2.2.2.1 hunp.2.2.2.2.1]
              exact hw
        · rw [heapGet_heapSet_other hqp]
          exact hcell

theorem frozen_runStep (s : CacheState) (i : Nat) {p : Nat} {ft : FileType} {w : Bool}
    (hf : frozenAt s p ft w) : frozenAt (RunStep s i) p ft w := by
  obtain ⟨h0, m, queue, b⟩ := s
  obtain ⟨hlt, hni, hcell⟩ := hf
  unfold RunStep
  dsimp only
  cases hq : queue.get? i with
  | none => exact ⟨hlt, hni, hcell⟩
  | some item =>
    have hmem : item ∈ queue := List.get?_mem hq
    have hne : item.ptr ≠ p := hni item hmem
    dsimp only
    cases hws : item.writes with
    | nil =>
      exact ⟨hlt, fun it hm => hni it ((List.eraseIdx_sublist queue i).subset hm), hcell⟩
    | cons w0 ws =>
      dsimp only
      have hqueue : ∀ it ∈ queue.set i { item with writes := ws }, it.ptr ≠ p := by
        intro it hm
        rcases List.mem_or_eq_of_mem_set hm with hm | rfl
        · exact hni it hm
        · exact hne
      cases hg : heapGet h0 item.ptr with
      | some r =>
        refine ⟨by rw [heapSet_length]; exact hlt, hqueue, ?_⟩
        rw [heapGet_heapSet_other hne]
        exact hcell
      | none => exact ⟨hlt, hqueue, hcell⟩

theorem frozen_flushBGs (s : CacheState) {p : Nat} {ft : FileType} {w : Bool}
    (hf : frozenAt s p ft w) : frozenAt (FlushBGs s) p ft w := by
  obtain ⟨h0, m, queue, b⟩ := s
  obtain ⟨hlt, hni, hcell⟩ := hf
  unfold FlushBGs
  dsimp only
  refine ⟨by rw [foldModify_length]; exact hlt, hni, ?_⟩
  rcases hcell with hnone | ⟨r, hr, hunp, hft, hw⟩
  · rcases foldModify_get flushRecord flushRecord_idem m h0 p with he | ⟨r1, hr1, _⟩
    · exact Or.inl (he.trans hnone)
    · rw [hnone] at hr1
      exact Option.noConfusion hr1
  · rcases foldModify_get flushRecord flushRecord_idem m h0 p with he | ⟨r1, hr1, heq⟩
    · exact Or.inr ⟨r, he.trans hr, hunp, hft, hw⟩
    · rw [hr] at hr1
      obtain rfl : r = r1 := by injection hr1
      exact Or.inr ⟨flushRecord r, heq, unpopulated_flushRecord hunp, hft, hw⟩

theorem frozen_clear (s : CacheState) {p : Nat} {ft : FileType} {w : Bool}
    (hf : frozenAt s p ft w) : frozenAt (Clear s) p ft w := by
  obtain ⟨h0, m, queue, b⟩ := s
  obtain ⟨hlt, hni, hcell⟩ := hf
  unfold Clear
  dsimp only
  have hdrain : heapGet ((queue.foldl drainItem (h0, b)).1) p = heapGet h0 p :=
    drain_get_no_item queue h0 b p hni
  refine ⟨by rw [foldModify_length, drain_length]; exact hlt, by simp, ?_⟩
  rcases hcell with hnone | ⟨r, hr, hunp, hft, hw⟩
  · rcases foldModify_get clearRecord (fun r => rfl) m _ p with he | ⟨r1, hr1, _⟩
    · exact Or.inl (he.trans (hdrain.trans hnone))
    · rw [hdrain, hnone] at hr1
      exact Option.noConfusion hr1
  · rcases foldModify_get clearRecord (fun r => rfl) m _ p with he | ⟨r1, hr1, heq⟩
    · exact Or.inr ⟨r, he.trans (hdrain.trans hr), hunp, hft, hw⟩
    · rw [hdrain, hr] at hr1
      obtain rfl : r = r1 := by injection hr1
      rw [clearRecord_eq_flushRecord] at heq
      exact Or.inr ⟨flushRecord r, heq, unpopulated_flushRecord hunp, hft, hw⟩

theorem frozen_applyOp (env : Env) (s : CacheState) (op : Op) {p : Nat} {ft : FileType}
    {w : Bool} (hf : frozenAt s p ft w) : frozenAt (applyOp env s op) p ft w := by
  cases op with
  | opGetInfo gamePath wantBG now => exact frozen_getInfo env s gamePath wantBG now hf
  | opRunStep i => exact frozen_runStep s i hf
  | opFlushBGs => exact frozen_flushBGs s hf
  | opClear => exact frozen_clear s hf

theorem frozen_execOps (env : Env) :
    ∀ (ops : List Op) (s : CacheState) {p : Nat} {ft : FileType} {w : Bool},
      frozenAt s p ft w → frozenAt (execOps env s ops) p ft w := by
  intro ops
  induction ops with
  | nil => intro s p ft w hf; exact hf
  | cons op t ih =>
    intro s p ft w hf
    exact ih (applyOp env s op) (frozen_applyOp env s op hf)

theorem reachable_execOps {env : Env} {s : CacheState} (hr : Reachable env s)
    (ops : List Op) : Reachable env (execOps env s ops) := by
  obtain ⟨ops0, rfl⟩ := hr
  exact ⟨ops0 ++ ops, by rw [execOps, execOps, execOps, List.foldl_append]⟩

theorem reachable_applyOp {env : Env} {s : CacheState} (hr : Reachable env s)
    (op : Op) : Reachable env (applyOp env s op) :=
  reachable_execOps hr [op]

/-! ## Map stability for the identity-stable cache hit -/

/-- Operations that the identity-stability property allows between two
`GetInfo(k, false)` calls: anything except `Clear` and except a
background-escalating `GetInfo(k, true)` on the same key. -/
def allowedOp (k : String) : Op → Prop
  | Op.opGetInfo k' b _ => k' ≠ k ∨ b = false
  | Op.opRunStep _ => True
  | Op.opFlushBGs => True
  | Op.opClear => False

theorem runStep_infoMap (s : CacheState) (i : Nat) :
    (RunStep s i).infoMap = s.infoMap := by
  obtain ⟨h0, m, queue, b⟩ := s
  unfold RunStep
  dsimp only
  cases hq : queue.get? i with
  | none => rfl
  | some item =>
    dsimp only
    cases item.writes with
    | nil => rfl
    | cons w ws =>
      dsimp only
      cases heapGet h0 item.ptr <;> rfl

theorem flushBGs_infoMap (s : CacheState) : (FlushBGs s).infoMap = s.infoMap := rfl

theorem map_stable_getInfo (env : Env) (s : CacheState) {k : String} {p : Nat}
    (hinv : Inv s) (hl : mapLookup s.infoMap k = some p)
    (k' : String) (b' : Bool) (now : Nat) (hallow : k' ≠ k ∨ b' = false) :
    mapLookup (GetInfo env s k' b' now).2.infoMap k = some p := by
  obtain ⟨h0, m, queue, b⟩ := s
  have hmapL := hinv.mapLive
  have hl0 : mapLookup m k = some p := hl
  unfold GetInfo
  cases hlk : mapLookup m k' with
  | none =>
    have hne : k ≠ k' := by
      intro hc
      rw [hc, hlk] at hl0
      exact Option.noConfusion hl0
    dsimp only [createRecord]
    show mapLookup (mapSet m k' h0.length) k = some p
    rw [mapLookup_mapSet_other hne]
    exact hl0
  | some q =>
    dsimp only
    cases hg : heapGet h0 q with
    | none =>
      have hne : k ≠ k' := by
        intro hc
        rw [hc, hlk] at hl0
        obtain rfl : q = p := by injection hl0
        obtain ⟨r, hr⟩ := hmapL k' q hlk
        rw [hg] at hr
        exact Option.noConfusion hr
      dsimp only [createRecord]
      show mapLookup (mapSet m k' h0.length) k = some p
      rw [mapLookup_mapSet_other hne]
      exact hl0
    | some info =>
      dsimp only
      by_cases hesc : (!info.wantBG && b') = true
      · rw [if_pos hesc]
        have hb' : b' = true := by
          rcases Bool.eq_false_or_eq_true b' with hb | hb
          · exact hb
          · rw [hb, Bool.and_false] at hesc
            exact Bool.noConfusion hesc
        have hne : k ≠ k' := by
          intro hc
          rcases hallow with hko | hbf
          · exact hko hc.symm
          · rw [hbf] at hb'
            exact Bool.noConfusion hb'
        dsimp only [createRecord]
        show mapLookup (mapSet m k' (heapSet h0 q none).length) k = some p
        rw [mapLookup_mapSet_other hne]
        exact hl0
      · rw [if_neg hesc]
        exact hl0

theorem map_stable_applyOp (env : Env) (s : CacheState) {k : String} {p : Nat}
    (hinv : Inv s) (hl : mapLookup s.infoMap k = some p) (op : Op)
    (hallow : allowedOp k op) : mapLookup (applyOp env s op).infoMap k = some p := by
  cases op with
  | opGetInfo k' b' now => exact map_stable_getInfo env s hinv hl k' b' now hallow
  | opRunStep i => rw [applyOp, runStep_infoMap]; exact hl
  | opFlushBGs => rw [applyOp, flushBGs_infoMap]; exact hl
  | opClear => exact absurd hallow (fun h => h)

theorem map_stable_execOps (env : Env) :
    ∀ (ops : List Op) (s : CacheState) {k : String} {p : Nat},
      Inv s → mapLookup s.infoMap k = some p → (∀ op ∈ ops, allowedOp k op) →
      mapLookup (execOps env s ops).infoMap k = some p := by
  intro ops
  induction ops with
  | nil => intro s k p _ hl _; exact hl
  | cons op t ih =>
    intro s k p hinv hl hallow
    exact ih (applyOp env s op) (inv_applyOp env s op hinv)
      (map_stable_applyOp env s hinv hl op (hallow op (List.mem_cons_self _ _)))
      (fun o ho => hallow o (List.mem_cons_of_mem _ ho))

theorem getInfo_hit_false (env : Env) (s : CacheState) {k : String} {p : Nat}
    (hinv : Inv s) (hl : mapLookup s.infoMap k = some p) (now : Nat) :
    (GetInfo env s k false now).1 = p := by
  obtain ⟨h0, m, queue, b⟩ := s
  have hl0 : mapLookup m k = some p := hl
  obtain ⟨info, hg⟩ := hinv.mapLive k p hl
  have hg0 : heapGet h0 p = some info := hg
  unfold GetInfo
  rw [hl0]
  dsimp only
  rw [hg0]
  dsimp only
  rw [if_neg (by simp)]

theorem getInfo_false_maps_self (env : Env) (s : CacheState) (k : String) (now : Nat)
    (hinv : Inv s) :
    mapLookup (GetInfo env s k false now).2.infoMap k = some (GetInfo env s k false now).1 := by
  obtain ⟨h0, m, queue, b⟩ := s
  unfold GetInfo
  cases hlk : mapLookup m k with
  | none =>
    dsimp only [createRecord]
    show mapLookup (mapSet m k h0.length) k = some h0.length
    exact mapLookup_mapSet_self m k h0.length
  | some p =>
    dsimp only
    cases hg : heapGet h0 p with
    | none =>
      obtain ⟨r, hr⟩ := hinv.mapLive k p hlk
      rw [hg] at hr
      exact Option.noConfusion hr
    | some info =>
      dsimp only
      rw [if_neg (by simp)]
      exact hlk

/-! ## Loader dispatch lemmas -/

theorem runProgram_ms0 (env : Env) (gamePath : String) (w : Bool)
    (h : strStartsWith gamePath "ms0:/PSP/GAME" = true) :
    runProgram env gamePath w = [] := by
  unfold runProgram
  rw [if_pos h]

theorem runOn_ms0 (env : Env) (gamePath : String) (r : GameInfo)
    (h : strStartsWith gamePath "ms0:/PSP/GAME" = true) : runOn env gamePath r = r := by
  unfold runOn
  rw [runProgram_ms0 env gamePath r.wantBG h]
  rfl

theorem strEndsWith_unique {s a b : String} (ha : strEndsWith s a = true)
    (hb : strEndsWith s b = true) (hlen : a.data.length = b.data.length)
    (hne : a.data ≠ b.data) : False := by
  unfold strEndsWith at ha hb
  have ha' := of_decide_eq_true ha
  have hb' := of_decide_eq_true hb
  rw [hlen] at ha'
  exact hne (ha'.symm.trans hb')

theorem not_pbp_of_exe {s : String}
    (h : (strEndsWith s ".elf" || strEndsWith s ".prx") = true) :
    strEndsWith s ".PBP" = false := by
  cases hpbp : strEndsWith s ".PBP" with
  | false => rfl
  | true =>
    exfalso
    cases helf : strEndsWith s ".elf" with
    | true => exact strEndsWith_unique helf hpbp (by decide) (by decide)
    | false =>
      cases hprx : strEndsWith s ".prx" with
      | true => exact strEndsWith_unique hprx hpbp (by decide) (by decide)
      | false =>
        rw [helf, hprx] at h
        exact Bool.noConfusion h

theorem runProgram_exe (env : Env) (gamePath : String) (w : Bool)
    (h1 : strStartsWith gamePath "ms0:/PSP/GAME" = false)
    (h3 : (strEndsWith gamePath ".elf" || strEndsWith gamePath ".prx") = true) :
    runProgram env gamePath w = [FieldWrite.setFileType FileType.FILETYPE_PSP_ELF] := by
  unfold runProgram
  rw [if_neg (by simp [h1]), if_neg (by simp [not_pbp_of_exe h3]), if_pos h3]

theorem runOn_exe (env : Env) (gamePath : String) (r : GameInfo)
    (h1 : strStartsWith gamePath "ms0:/PSP/GAME" = false)
    (h3 : (strEndsWith gamePath ".elf" || strEndsWith gamePath ".prx") = true) :
    runOn env gamePath r = { r with fileType := FileType.FILETYPE_PSP_ELF } := by
  unfold runOn
  rw [runProgram_exe env gamePath r.wantBG h1 h3]
  rfl

theorem runProgram_iso_fail (env : Env) (gamePath : String) (w : Bool)
    (h1 : strStartsWith gamePath "ms0:/PSP/GAME" = false)
    (h2 : strEndsWith gamePath ".PBP" = false)
    (h3 : strEndsWith gamePath ".elf" = false)
    (h4 : strEndsWith gamePath ".prx" = false)
    (h5 : env.constructBlockDevice gamePath = false) :
    runProgram env gamePath w = [FieldWrite.setFileType FileType.FILETYPE_PSP_ISO] := by
  unfold runProgram
  rw [if_neg (by simp [h1]), if_neg (by simp [h2]), if_neg (by simp [h3, h4]),
    if_pos (by simp [h5])]
  rfl

theorem runOn_iso_fail (env : Env) (gamePath : String) (r : GameInfo)
    (h1 : strStartsWith gamePath "ms0:/PSP/GAME" = false)
    (h2 : strEndsWith gamePath ".PBP" = false)
    (h3 : strEndsWith gamePath ".elf" = false)
    (h4 : strEndsWith gamePath ".prx" = false)
    (h5 : env.constructBlockDevice gamePath = false) :
    runOn env gamePath r = { r with fileType := FileType.FILETYPE_PSP_ISO } := by
  unfold runOn
  rw [runProgram_iso_fail env gamePath r.wantBG h1 h2 h3 h4 h5]
  rfl

/-! ## GetInfo hit / miss shape lemmas -/

theorem getInfo_hit (env : Env) (s : CacheState) {gamePath : String} {p : Nat}
    {info : GameInfo} (b' : Bool) (now : Nat)
    (hl : mapLookup s.infoMap gamePath = some p) (hg : heapGet s.heap p = some info)
    (hesc : (!info.wantBG && b') = false) :
    (GetInfo env s gamePath b' now).1 = p
    ∧ heapGet (GetInfo env s gamePath b' now).2.heap p
        = some { decodeAll env now info with lastAccessedTime := now } := by
  obtain ⟨h0, m, queue, b⟩ := s
  have hl0 : mapLookup m gamePath = some p := hl
  have hg0 : heapGet h0 p = some info := hg
  have hp : p < h0.length := heapGet_lt_length hg0
  unfold GetInfo
  rw [hl0]
  dsimp only
  rw [hg0]
  dsimp only
  rw [if_neg (by simp [hesc])]
  exact ⟨rfl, heapGet_heapSet_self hp _⟩

theorem getInfo_miss (env : Env) (s : CacheState) {gamePath : String} (b' : Bool)
    (now : Nat) (hl : mapLookup s.infoMap gamePath = none) :
    (GetInfo env s gamePath b' now).1 = s.heap.length
    ∧ heapGet (GetInfo env s gamePath b' now).2.heap s.heap.length
        = some (initRecord b')
    ∧ mapLookup (GetInfo env s gamePath b' now).2.infoMap gamePath = some s.heap.length := by
  obtain ⟨h0, m, queue, b⟩ := s
  have hl0 : mapLookup m gamePath = none := hl
  unfold GetInfo
  rw [hl0]
  dsimp only [createRecord]
  exact ⟨rfl, heapGet_append_length h0 _, mapLookup_mapSet_self m gamePath h0.length⟩

/-! ## Concrete oracle instances for the scenario runs -/

/-- An oracle in which every external collaborator fails or is empty. -/
def env0 : Env where
  pbpValid := fun _ => false
  pbpSubFileSize := fun _ _ => 0
  pbpSubFile := fun _ _ => []
  sfoParse := fun _ => []
  constructBlockDevice := fun _ => false
  fileExists := fun _ _ => false
  fileOpenOk := fun _ _ => false
  fileContents := fun _ _ => []
  loadPNG := fun _ => false

/-- A valid PBP container with a 3-byte icon and no backgrounds; PNG
decoding always succeeds. -/
def env1 : Env :=
  { env0 with
    pbpValid := fun _ => true
    pbpSubFileSize := fun _ sub => if sub = PBPSub.ICON0_PNG then 3 else 0
    pbpSubFile := fun _ sub => if sub = PBPSub.ICON0_PNG then [1, 2, 3] else []
    loadPNG := fun _ => true }

/-- A mountable ISO with an icon file `[1]` that decodes and a PIC0 file
`[2]` that fails to decode. -/
def env2 : Env :=
  { env0 with
    constructBlockDevice := fun _ => true
    fileExists := fun _ f => f = "/PSP_GAME/ICON0.PNG" || f = "/PSP_GAME/PIC0.PNG"
    fileOpenOk := fun _ _ => true
    fileContents := fun _ f => if f = "/PSP_GAME/ICON0.PNG" then [1] else [2]
    loadPNG := fun d => decide (d = [1]) }

/-! ## Claims -/

/-- C1: `GetInfo(k,false)` then `GetInfo(k,true)` leaves exactly one
live record for `k` with `wantBackground = true` — but the claim's
safety half fails on the code: the loader task bound to the discarded
record is still queued when the record is freed, and running it mutates
freed storage.  Concretely for `k = "g.elf"`: after the two calls the
map holds only pointer 1 (live, `wantBG = true`), pointer 0 is freed,
and executing the first loader task performs its `fileType` store into
the freed record (`freedWrite` flag). -/
theorem claim1_escalation_use_after_free :
    ((execOps env0 initState [Op.opGetInfo "g.elf" false 0, Op.opGetInfo "g.elf" true 1,
        Op.opRunStep 0]).freedWrite = true)
    ∧ ((execOps env0 initState [Op.opGetInfo "g.elf" false 0, Op.opGetInfo "g.elf" true 1,
        Op.opRunStep 0]).infoMap = [("g.elf", 1)])
    ∧ ((heapGet (execOps env0 initState [Op.opGetInfo "g.elf" false 0,
        Op.opGetInfo "g.elf" true 1, Op.opRunStep 0]).heap 1).map GameInfo.wantBG = some true)
    ∧ (heapGet (execOps env0 initState [Op.opGetInfo "g.elf" false 0,
        Op.opGetInfo "g.elf" true 1, Op.opRunStep 0]).heap 0 = none)
    ∧ (List.map WorkItem.ptr (execOps env0 initState [Op.opGetInfo "g.elf" false 0,
        Op.opGetInfo "g.elf" true 1]).queue = [0, 1]) := by
  decide

/-- C2: on the decode step, a failed `LoadPNG` of the pic0 slot must
leave that slot `Empty` and no other slot affected — but the source's
pic0/pic1 failure branches delete and null `iconTexture` instead of
their own texture.  In a run where the icon (`[1]`) decodes and PIC0
(`[2]`) fails in the same `GetInfo` call, the final record has
`pic0Texture` non-null (the failed texture is never released),
`iconTexture` null (the successfully decoded icon was destroyed), with
the icon success timestamp still recorded. -/
theorem claim2_pic0_failure_mutates_icon_slot :
    ((heapGet (execOps env2 initState [Op.opGetInfo "d.iso" true 0, Op.opRunStep 0,
        Op.opRunStep 0, Op.opRunStep 0, Op.opRunStep 0, Op.opGetInfo "d.iso" true 7]).heap 0).map
        GameInfo.pic0Texture = some (some ()))
    ∧ ((heapGet (execOps env2 initState [Op.opGetInfo "d.iso" true 0, Op.opRunStep 0,
        Op.opRunStep 0, Op.opRunStep 0, Op.opRunStep 0, Op.opGetInfo "d.iso" true 7]).heap 0).map
        GameInfo.iconTexture = some none)
    ∧ ((heapGet (execOps env2 initState [Op.opGetInfo "d.iso" true 0, Op.opRunStep 0,
        Op.opRunStep 0, Op.opRunStep 0, Op.opRunStep 0, Op.opGetInfo "d.iso" true 7]).heap 0).map
        GameInfo.timeIconWasLoaded = some 7)
    ∧ ((heapGet (execOps env2 initState [Op.opGetInfo "d.iso" true 0, Op.opRunStep 0,
        Op.opRunStep 0, Op.opRunStep 0, Op.opRunStep 0, Op.opGetInfo "d.iso" true 7]).heap 0).map
        GameInfo.pic0TextureData = some [])
    ∧ env2.loadPNG [2] = false ∧ env2.loadPNG [1] = true := by
  decide

/-- C3: `Clear()` must empty the map and release every decoded artifact
handle — but the source's `Clear` releases only the two background
textures and never `iconTexture` (nor the records themselves).  After
decoding an icon and calling `Clear`, the map is empty yet one icon
handle is still outstanding in the leaked record. -/
theorem claim3_clear_leaks_icon_handle :
    ((execOps env1 initState [Op.opGetInfo "g.PBP" false 0, Op.opRunStep 0, Op.opRunStep 0,
        Op.opRunStep 0, Op.opRunStep 0, Op.opGetInfo "g.PBP" false 1, Op.opClear]).infoMap = [])
    ∧ (outstandingHandles (execOps env1 initState [Op.opGetInfo "g.PBP" false 0, Op.opRunStep 0,
        Op.opRunStep 0, Op.opRunStep 0, Op.opRunStep 0, Op.opGetInfo "g.PBP" false 1,
        Op.opClear]).heap = 1)
    ∧ ((heapGet (execOps env1 initState [Op.opGetInfo "g.PBP" false 0, Op.opRunStep 0,
        Op.opRunStep 0, Op.opRunStep 0, Op.opRunStep 0, Op.opGetInfo "g.PBP" false 1,
        Op.opClear]).heap 0).map GameInfo.iconTexture = some (some ())) := by
  decide

/-- C4 counterexample: the claim says a failed block-device construction
aborts the loader task with every record field unchanged, including the
kind — but the source stores `FILETYPE_PSP_ISO` before attempting
`constructBlockDevice`, so the kind is mutated even on failure. -/
theorem claim4_counterexample :
    env0.constructBlockDevice "disc.iso" = false
    ∧ GameInfo.init.fileType = FileType.FILETYPE_UNKNOWN
    ∧ (runOn env0 "disc.iso" GameInfo.init).fileType = FileType.FILETYPE_PSP_ISO
    ∧ runOn env0 "disc.iso" GameInfo.init ≠ GameInfo.init := by
  decide

/-- C4 (amended): for an OpticalImage key, if block-device construction
fails the loader task aborts after storing `kind = OpticalImage`; every
other field of the record is left unchanged. -/
theorem claim4_iso_fail_sets_kind_only (env : Env) (gamePath : String) (r : GameInfo)
    (h1 : strStartsWith gamePath "ms0:/PSP/GAME" = false)
    (h2 : strEndsWith gamePath ".PBP" = false)
    (h3 : strEndsWith gamePath ".elf" = false)
    (h4 : strEndsWith gamePath ".prx" = false)
    (h5 : env.constructBlockDevice gamePath = false) :
    runOn env gamePath r = { r with fileType := FileType.FILETYPE_PSP_ISO } :=
  runOn_iso_fail env gamePath r h1 h2 h3 h4 h5

/-- Witness for C4's amended theorem at `env0` and key `"disc.iso"`. -/
theorem claim4_witness :
    strStartsWith "disc.iso" "ms0:/PSP/GAME" = false
    ∧ strEndsWith "disc.iso" ".PBP" = false
    ∧ strEndsWith "disc.iso" ".elf" = false
    ∧ strEndsWith "disc.iso" ".prx" = false
    ∧ env0.constructBlockDevice "disc.iso" = false
    ∧ runOn env0 "disc.iso" GameInfo.init
        = { GameInfo.init with fileType := FileType.FILETYPE_PSP_ISO } :=
  ⟨by decide, by decide, by decide, by decide, by decide,
    claim4_iso_fail_sets_kind_only env0 "disc.iso" GameInfo.init
      (by decide) (by decide) (by decide) (by decide) (by decide)⟩

/-- C5: `FlushBGs()` keeps the map and the task queue unchanged, rewrites
every mapped record with `flushRecord`, leaves unmapped heap cells
untouched, and `flushRecord` resets exactly the two background slots
(raw bytes and decoded handles) while preserving the icon slot, title,
metadata table, kind, `wantBG` and access time. -/
theorem claim5_flushBGs_backgrounds_only (s : CacheState) :
    (FlushBGs s).infoMap = s.infoMap
    ∧ (FlushBGs s).queue = s.queue
    ∧ (∀ k p r, (k, p) ∈ s.infoMap → heapGet s.heap p = some r →
        heapGet (FlushBGs s).heap p = some (flushRecord r))
    ∧ (∀ q, (∀ k, (k, q) ∉ s.infoMap) → heapGet (FlushBGs s).heap q = heapGet s.heap q)
    ∧ (∀ r : GameInfo,
        (flushRecord r).pic0TextureData = [] ∧ (flushRecord r).pic0Texture = none
        ∧ (flushRecord r).pic1TextureData = [] ∧ (flushRecord r).pic1Texture = none
        ∧ (flushRecord r).iconTextureData = r.iconTextureData
        ∧ (flushRecord r).iconTexture = r.iconTexture
        ∧ (flushRecord r).title = r.title ∧ (flushRecord r).paramSFO = r.paramSFO
        ∧ (flushRecord r).fileType = r.fileType ∧ (flushRecord r).wantBG = r.wantBG
        ∧ (flushRecord r).lastAccessedTime = r.lastAccessedTime) := by
  refine ⟨rfl, rfl, ?_, ?_, ?_⟩
  · intro k p r hk hr
    exact foldModify_get_mem flushRecord flushRecord_idem s.infoMap s.heap p r ⟨k, hk⟩ hr
  · intro q hq
    exact foldModify_get_not_mem flushRecord s.infoMap s.heap q hq
  · intro r
    exact ⟨rfl, rfl, rfl, rfl, rfl, rfl, rfl, rfl, rfl, rfl, rfl⟩

/-- Witness for C5 on a one-record cache whose record has a decoded icon
and a populated pic1 slot. -/
theorem claim5_witness :
    (FlushBGs ⟨[some { GameInfo.init with
                       iconTexture := some (), pic1TextureData := [7], title := "T" }],
        [("k", 0)], [], false⟩).infoMap = [("k", 0)]
    ∧ heapGet (FlushBGs ⟨[some { GameInfo.init with
                                 iconTexture := some (), pic1TextureData := [7],
                                 title := "T" }], [("k", 0)], [], false⟩).heap 0
      = some (flushRecord { GameInfo.init with
                            iconTexture := some (), pic1TextureData := [7],
                            title := "T" }) := by
  refine ⟨(claim5_flushBGs_backgrounds_only _).1, ?_⟩
  exact (claim5_flushBGs_backgrounds_only _).2.2.1 "k" 0 _ (by decide) (by decide)

/-- C6: in every reachable cache state, no slot of any live record holds
raw bytes and a decoded handle at the same time (the decode critical
section clears the raw buffer in the same step that installs the
handle), and a successful decode of a slot ends with the raw buffer
empty, that slot's handle non-null and its timestamp recorded. -/
theorem claim6_slot_exclusion :
    (∀ (env : Env) (s : CacheState), Reachable env s →
      ∀ p r, heapGet s.heap p = some r → slotsOk r)
    ∧ (∀ (env : Env) (now : Nat) (r : GameInfo),
        r.iconTextureData ≠ [] → env.loadPNG r.iconTextureData = true →
        (decodeIcon env now r).iconTextureData = []
        ∧ (decodeIcon env now r).iconTexture = some ()
        ∧ (decodeIcon env now r).timeIconWasLoaded = now)
    ∧ (∀ (env : Env) (now : Nat) (r : GameInfo),
        r.pic0TextureData ≠ [] → env.loadPNG r.pic0TextureData = true →
        (decodePic0 env now r).pic0TextureData = []
        ∧ (decodePic0 env now r).pic0Texture = some ()
        ∧ (decodePic0 env now r).timePic0WasLoaded = now)
    ∧ (∀ (env : Env) (now : Nat) (r : GameInfo),
        r.pic1TextureData ≠ [] → env.loadPNG r.pic1TextureData = true →
        (decodePic1 env now r).pic1TextureData = []
        ∧ (decodePic1 env now r).pic1Texture = some ()
        ∧ (decodePic1 env now r).timePic1WasLoaded = now) := by
  refine ⟨?_, ?_, ?_, ?_⟩
  · intro env s hr p r hg
    exact (reachable_inv hr).heapOk p r hg
  · intro env now r hne hpng
    unfold decodeIcon
    rw [if_pos (fun hc => hne (List.length_eq_zero.mp hc)), if_pos hpng]
    exact ⟨rfl, rfl, rfl⟩
  · intro env now r hne hpng
    unfold decodePic0
    rw [if_pos (fun hc => hne (List.length_eq_zero.mp hc)), if_pos hpng]
    exact ⟨rfl, rfl, rfl⟩
  · intro env now r hne hpng
    unfold decodePic1
    rw [if_pos (fun hc => hne (List.length_eq_zero.mp hc)), if_pos hpng]
    exact ⟨rfl, rfl, rfl⟩

/-- Witness for C6: the invariant applied to a reachable state holding a
record with loader-written raw icon bytes, and a successful icon decode
at a concrete record. -/
theorem claim6_witness :
    (heapGet (execOps env1 initState [Op.opGetInfo "g.PBP" false 0, Op.opRunStep 0,
        Op.opRunStep 0, Op.opRunStep 0]).heap 0).map GameInfo.iconTextureData
      = some [1, 2, 3]
    ∧ slotsOk { GameInfo.init with
                fileType := FileType.FILETYPE_PSP_PBP, iconTextureData := [1, 2, 3] }
    ∧ ([3] : List UInt8) ≠ []
    ∧ env1.loadPNG [3] = true
    ∧ (decodeIcon env1 5 { GameInfo.init with iconTextureData := [3] }).iconTexture
      = some () := by
  refine ⟨by decide, ?_, by decide, by decide, ?_⟩
  · have h := claim6_slot_exclusion.1 env1
      (execOps env1 initState [Op.opGetInfo "g.PBP" false 0, Op.opRunStep 0,
        Op.opRunStep 0, Op.opRunStep 0])
      ⟨[Op.opGetInfo "g.PBP" false 0, Op.opRunStep 0, Op.opRunStep 0, Op.opRunStep 0], rfl⟩
      0 { GameInfo.init with
          fileType := FileType.FILETYPE_PSP_PBP, iconTextureData := [1, 2, 3] } (by decide)
    exact h
  · exact (claim6_slot_exclusion.2.1 env1 5 { GameInfo.init with iconTextureData := [3] }
      (by decide) (by decide)).2.1

/-- C7: running the loader task for an Executable key (`.elf` / `.prx`)
stores `kind = Executable` and returns at once, mutating nothing else;
and a live record that is wholly unpopulated with no loader task bound
to it stays unpopulated (same kind, same `wantBG`) under every further
interleaving of cache operations, so such records stay empty forever. -/
theorem claim7_executable_no_metadata :
    (∀ (env : Env) (gamePath : String) (r : GameInfo),
      (strEndsWith gamePath ".elf" || strEndsWith gamePath ".prx") = true →
      strStartsWith gamePath "ms0:/PSP/GAME" = false →
      runOn env gamePath r = { r with fileType := FileType.FILETYPE_PSP_ELF })
    ∧ (∀ (env : Env) (gamePath : String) (w : Bool),
        (strEndsWith gamePath ".elf" || strEndsWith gamePath ".prx") = true →
        strStartsWith gamePath "ms0:/PSP/GAME" = false →
        unpopulated (runOn env gamePath (initRecord w))
        ∧ (runOn env gamePath (initRecord w)).fileType = FileType.FILETYPE_PSP_ELF
        ∧ (runOn env gamePath (initRecord w)).title = "")
    ∧ (∀ (env : Env) (s : CacheState) (ops : List Op) (p : Nat) (ft : FileType) (w : Bool),
        frozenAt s p ft w → frozenAt (execOps env s ops) p ft w) := by
  refine ⟨?_, ?_, ?_⟩
  · intro env gamePath r h3 h1
    exact runOn_exe env gamePath r h1 h3
  · intro env gamePath w h3 h1
    rw [runOn_exe env gamePath (initRecord w) h1 h3]
    exact ⟨⟨rfl, rfl, rfl, rfl, rfl, rfl, rfl, rfl⟩, rfl, rfl⟩
  · intro env s ops p ft w hf
    exact frozen_execOps env ops s hf

/-- Witness for C7: the loader result for `"g.elf"`, and the frozen-state
preservation applied across a `FlushBGs` and a foreign `GetInfo` to the
state reached after the `"g.elf"` loader completed. -/
theorem claim7_witness :
    runOn env0 "g.elf" (initRecord false)
      = { initRecord false with fileType := FileType.FILETYPE_PSP_ELF }
    ∧ frozenAt (execOps env0 (execOps env0 initState [Op.opGetInfo "g.elf" false 0,
        Op.opRunStep 0, Op.opRunStep 0]) [Op.opFlushBGs, Op.opGetInfo "b.iso" true 3])
        0 FileType.FILETYPE_PSP_ELF false := by
  constructor
  · exact claim7_executable_no_metadata.1 env0 "g.elf" (initRecord false)
      (by decide) (by decide)
  · refine claim7_executable_no_metadata.2.2 env0 _ _ 0 FileType.FILETYPE_PSP_ELF false
      ⟨by decide, ?_, Or.inr ⟨{ GameInfo.init with
                                fileType := FileType.FILETYPE_PSP_ELF }, by decide,
        ⟨rfl, rfl, rfl, rfl, rfl, rfl, rfl, rfl⟩, rfl, rfl⟩⟩
    intro item hm
    have : (execOps env0 initState [Op.opGetInfo "g.elf" false 0, Op.opRunStep 0,
        Op.opRunStep 0]).queue = [] := by decide
    rw [this] at hm
    exact absurd hm (List.not_mem_nil item)

/-- C8: a `GetInfo(k, false)` call maps `k` to the record it returns,
and that map entry — hence the record identity every later
`GetInfo(k, false)` returns — is unchanged by any interleaving of
operations that contains no `Clear` and no escalating `GetInfo(k, true)`
(the cache hit is identity-stable). -/
theorem claim8_identity_stable_hit (env : Env) (s : CacheState) (k : String) (now0 : Nat)
    (hr : Reachable env s) :
    mapLookup (GetInfo env s k false now0).2.infoMap k = some (GetInfo env s k false now0).1
    ∧ ∀ ops : List Op, (∀ op ∈ ops, allowedOp k op) → ∀ now1 : Nat,
        mapLookup (execOps env (GetInfo env s k false now0).2 ops).infoMap k
          = some (GetInfo env s k false now0).1
        ∧ (GetInfo env (execOps env (GetInfo env s k false now0).2 ops) k false now1).1
          = (GetInfo env s k false now0).1 := by
  have hinv := reachable_inv hr
  have h1 := getInfo_false_maps_self env s k now0 hinv
  have hinv1 : Inv (GetInfo env s k false now0).2 := inv_getInfo env s k false now0 hinv
  refine ⟨h1, ?_⟩
  intro ops hallow now1
  have h2 := map_stable_execOps env ops (GetInfo env s k false now0).2 hinv1 h1 hallow
  have hinv2 := inv_execOps env ops (GetInfo env s k false now0).2 hinv1
  exact ⟨h2, getInfo_hit_false env _ hinv2 h2 now1⟩

/-- Witness for C8: from the empty cache, `GetInfo("g.elf", false)`
creates record 0; after a loader step, a `FlushBGs` and a `GetInfo` on a
different key, `GetInfo("g.elf", false)` still returns record 0. -/
theorem claim8_witness :
    mapLookup (GetInfo env0 initState "g.elf" false 0).2.infoMap "g.elf"
      = some (GetInfo env0 initState "g.elf" false 0).1
    ∧ (GetInfo env0 (execOps env0 (GetInfo env0 initState "g.elf" false 0).2
        [Op.opRunStep 0, Op.opFlushBGs, Op.opGetInfo "b.iso" true 2]) "g.elf" false 9).1
      = (GetInfo env0 initState "g.elf" false 0).1 := by
  have h := claim8_identity_stable_hit env0 initState "g.elf" 0 ⟨[], rfl⟩
  have hops : ∀ op ∈ [Op.opRunStep 0, Op.opFlushBGs, Op.opGetInfo "b.iso" true 2],
      allowedOp "g.elf" op := by
    intro op hop
    simp only [List.mem_cons, List.not_mem_nil, or_false] at hop
    rcases hop with rfl | rfl | rfl
    · exact trivial
    · exact trivial
    · exact Or.inl (by decide)
  exact ⟨h.1, (h.2 [Op.opRunStep 0, Op.opFlushBGs, Op.opGetInfo "b.iso" true 2] hops 9).2⟩

/-- C9 counterexample: the first `GetInfo("g.elf", false)` at time 5
creates the record but returns with `lastAccessedTime` still at its
constructor value 0 — the creation path of `GetInfo` never writes
`lastAccessedTime`, contradicting the claim that every successful call
updates it to the current time before returning. -/
theorem claim9_counterexample :
    (GetInfo env0 initState "g.elf" false 5).1 = 0
    ∧ (heapGet (GetInfo env0 initState "g.elf" false 5).2.heap 0).map
        GameInfo.lastAccessedTime = some 0
    ∧ (0 : Nat) ≠ 5 := by
  decide

/-- C9 (amended): a `GetInfo` that hits an existing record (with no
escalation) updates that record's `lastAccessedTime` to the call time
before returning; a `GetInfo` that creates the record returns with
`lastAccessedTime` still at the constructor value; and the loader task's
priority function reads the bound record's `lastAccessedTime` at the
moment it is asked — in particular, after a later foreground hit it
returns the new access time, not a value frozen at submission. -/
theorem claim9_lastAccess (env : Env) (s : CacheState) (gamePath : String) (b' : Bool)
    (now : Nat) :
    (∀ p info, mapLookup s.infoMap gamePath = some p → heapGet s.heap p = some info →
      (!info.wantBG && b') = false →
      (GetInfo env s gamePath b' now).1 = p
      ∧ (heapGet (GetInfo env s gamePath b' now).2.heap p).map GameInfo.lastAccessedTime
        = some now)
    ∧ (mapLookup s.infoMap gamePath = none →
      (heapGet (GetInfo env s gamePath b' now).2.heap (GetInfo env s gamePath b' now).1).map
        GameInfo.lastAccessedTime = some (initRecord b').lastAccessedTime)
    ∧ (∀ (h : List (Option GameInfo)) (item : WorkItem) (r : GameInfo),
        heapGet h item.ptr = some r → priority h item = some r.lastAccessedTime)
    ∧ (∀ p info item, item.ptr = p →
        mapLookup s.infoMap gamePath = some p → heapGet s.heap p = some info →
        (!info.wantBG && b') = false →
        priority (GetInfo env s gamePath b' now).2.heap item = some now) := by
  refine ⟨?_, ?_, ?_, ?_⟩
  · intro p info hl hg hesc
    obtain ⟨hfst, hsnd⟩ := getInfo_hit env s b' now hl hg hesc
    rw [hsnd]
    exact ⟨hfst, rfl⟩
  · intro hl
    obtain ⟨hfst, hsnd, _⟩ := getInfo_miss env s b' now hl
    rw [hfst, hsnd]
    rfl
  · intro h item r hg
    unfold priority
    rw [hg]
    rfl
  · intro p info item hptr hl hg hesc
    obtain ⟨_, hsnd⟩ := getInfo_hit env s b' now hl hg hesc
    unfold priority
    rw [hptr, hsnd]
    rfl

/-- Witness for C9's amended theorem: a hit at time 7 on the record
created at time 0 returns pointer 0 and stamps `lastAccessedTime = 7`,
the creation path leaves it at 0, and the queued task's priority read
after the hit yields 7. -/
theorem claim9_witness :
    mapLookup (GetInfo env0 initState "g.elf" false 0).2.infoMap "g.elf" = some 0
    ∧ ((GetInfo env0 (GetInfo env0 initState "g.elf" false 0).2 "g.elf" false 7).1 = 0
      ∧ (heapGet (GetInfo env0 (GetInfo env0 initState "g.elf" false 0).2
          "g.elf" false 7).2.heap 0).map GameInfo.lastAccessedTime = some 7)
    ∧ priority (GetInfo env0 (GetInfo env0 initState "g.elf" false 0).2
        "g.elf" false 7).2.heap ⟨"g.elf", 0, []⟩ = some 7 := by
  refine ⟨by decide, ?_, ?_⟩
  · exact (claim9_lastAccess env0 (GetInfo env0 initState "g.elf" false 0).2
      "g.elf" false 7).1 0 (initRecord false) (by decide) (by decide) (by decide)
  · exact (claim9_lastAccess env0 (GetInfo env0 initState "g.elf" false 0).2
      "g.elf" false 7).2.2.2 0 (initRecord false) ⟨"g.elf", 0, []⟩ rfl
      (by decide) (by decide) (by decide)

/-- C10: for a key under `ms0:/PSP/GAME` the loader task returns at once
without touching the record at all — not even its kind — and this prefix
case precedes the `.PBP` / `.elf` / `.prx` / ISO classification (a path
that is both under the prefix and a valid `.PBP` container is still
skipped); an untouched record with no bound task then stays wholly
unpopulated under every further interleaving of cache operations. -/
theorem claim10_ms0_prefix_skip :
    (∀ (env : Env) (gamePath : String) (r : GameInfo),
      strStartsWith gamePath "ms0:/PSP/GAME" = true → runOn env gamePath r = r)
    ∧ (∀ (env : Env) (gamePath : String) (w : Bool),
        strStartsWith gamePath "ms0:/PSP/GAME" = true → runProgram env gamePath w = [])
    ∧ (∀ (env : Env) (r : GameInfo), runOn env "ms0:/PSP/GAME/g.PBP" r = r)
    ∧ (∀ (env : Env) (s : CacheState) (ops : List Op) (p : Nat) (w : Bool),
        frozenAt s p FileType.FILETYPE_UNKNOWN w →
        frozenAt (execOps env s ops) p FileType.FILETYPE_UNKNOWN w) := by
  refine ⟨?_, ?_, ?_, ?_⟩
  · intro env gamePath r h
    exact runOn_ms0 env gamePath r h
  · intro env gamePath w h
    exact runProgram_ms0 env gamePath w h
  · intro env r
    exact runOn_ms0 env _ r (by decide)
  · intro env s ops p w hf
    exact frozen_execOps env ops s hf

/-- Witness for C10: even with a valid PBP oracle, the loader leaves the
record untouched for a `ms0:/PSP/GAME` path, and the untouched record
stays unpopulated across a loader step, a flush and a foreign lookup. -/
theorem claim10_witness :
    strStartsWith "ms0:/PSP/GAME/g.PBP" "ms0:/PSP/GAME" = true
    ∧ env1.pbpValid "ms0:/PSP/GAME/g.PBP" = true
    ∧ runOn env1 "ms0:/PSP/GAME/g.PBP" GameInfo.init = GameInfo.init
    ∧ frozenAt (execOps env1 (execOps env1 initState
        [Op.opGetInfo "ms0:/PSP/GAME/g.PBP" false 0, Op.opRunStep 0])
        [Op.opFlushBGs, Op.opGetInfo "b.PBP" true 3]) 0 FileType.FILETYPE_UNKNOWN false := by
  refine ⟨by decide, by decide, ?_, ?_⟩
  · exact claim10_ms0_prefix_skip.1 env1 "ms0:/PSP/GAME/g.PBP" GameInfo.init (by decide)
  · refine claim10_ms0_prefix_skip.2.2.2 env1 _ _ 0 false
      ⟨by decide, ?_, Or.inr ⟨GameInfo.init, by decide,
        ⟨rfl, rfl, rfl, rfl, rfl, rfl, rfl, rfl⟩, rfl, rfl⟩⟩
    intro item hm
    have hq : (execOps env1 initState [Op.opGetInfo "ms0:/PSP/GAME/g.PBP" false 0,
        Op.opRunStep 0]).queue = [] := by decide
    rw [hq] at hm
    exact absurd hm (List.not_mem_nil item)

end GameInfoCacheModel
